import Mathlib

/-!
Verification development for the infrax configuration resolver.

The definitions below are a shallow embedding of the TypeScript sources:
  - src/utils/index.ts      (simpleHash, matchPattern)
  - src/resolver/index.ts   (selectorsMatch, applyInstructionVariants,
                             resolveFromRegistry)
  - src/loaders/index.ts    (addToRegistry, loadFullRegistry)

JavaScript `Map` and `Set` are modelled by insertion-ordered lists,
JavaScript numbers in `simpleHash` by integers with explicit 32-bit
truncation, and the one clock read (`new Date().toISOString()`) by an
explicit string parameter.  Optional (possibly `undefined`) fields are
modelled with `Option`; JavaScript truthiness of an optional string
(`undefined` and `""` are falsy) is the predicate `truthyStr`.
-/

namespace Infrax

/-- Truthiness of a possibly-undefined JS string: `undefined` and `""` are falsy. -/
def truthyStr : Option String → Bool
  | none => false
  | some s => s ≠ ""

/-- JS `Set.add`: append if not already present (insertion order preserved). -/
def setAdd (s : List String) (x : String) : List String :=
  if x ∈ s then s else s ++ [x]

/-- JS `new Set(xs)`: dedupe keeping first occurrences, insertion order. -/
def setFromList (xs : List String) : List String :=
  xs.foldl setAdd []

/-- JS `Map.get`: first binding for the key, if any. -/
def mapGet {α : Type} (m : List (String × α)) (k : String) : Option α :=
  match m.find? (fun kv => kv.1 == k) with
  | some kv => some kv.2
  | none => none

/-- JS `Map.set`: replace the binding in place if the key exists, else append. -/
def mapSet {α : Type} (m : List (String × α)) (k : String) (v : α) :
    List (String × α) :=
  match m with
  | [] => [(k, v)]
  | kv :: rest =>
    if kv.1 == k then (k, v) :: rest else kv :: mapSet rest k v

/-! ### simpleHash (src/utils/index.ts lines 105-113)

`hash = (hash << 5) - hash + charCodeAt(i); hash = hash & hash` over the
UTF-16 code units of the string, then `Math.abs(hash).toString(16).padStart(8, "0")`.
-/

/-- ToInt32 of ECMAScript: reduce mod 2^32 into the signed 32-bit range. -/
def toInt32 (n : Int) : Int :=
  let r := n % 4294967296
  if r < 2147483648 then r else r - 4294967296

/-- UTF-16 code units of a character (surrogate pair above U+FFFF). -/
def utf16Units (c : Char) : List Nat :=
  let n := c.toNat
  if n < 65536 then [n]
  else [55296 + (n - 65536) / 1024, 56320 + (n - 65536) % 1024]

/-- UTF-16 code units of a string, as read by `charCodeAt`. -/
def strCodeUnits (s : String) : List Nat :=
  (s.data.map utf16Units).flatten

/-- One step of the simpleHash loop: `hash = (hash << 5) - hash + char; hash = hash & hash`. -/
def hashStep (h : Int) (c : Nat) : Int :=
  toInt32 (toInt32 (h * 32) - h + (c : Int))

/-- Lowercase base-16 digits of a natural number, `Math.abs(hash).toString(16)`. -/
def hexString (n : Nat) : String :=
  String.mk (Nat.toDigits 16 n)

/-- JS `padStart(8, "0")`. -/
def padStart8 (s : String) : String :=
  String.mk (List.replicate (8 - s.length) '0') ++ s

/-- Embedding of `simpleHash` from src/utils/index.ts. -/
def simpleHash (str : String) : String :=
  let h := (strCodeUnits str).foldl hashStep 0
  padStart8 (hexString h.natAbs)

/-! ### matchPattern (src/utils/index.ts lines 118-126)

The source escapes the regex metacharacters `. + ^ $ \x7b \x7d ( ) | [ ] \`,
rewrites `*` to `.*`, and tests `^pattern$` against the value.  `?` is NOT
escaped, so it survives as a regex quantifier making the preceding atom
optional.  The regexes produced this way are concatenations of literal
characters, `.*` (greedy or lazy), and optional literals, which we model
exactly.  An invalid regex (a `?` with nothing to repeat) makes the source
throw; the embedding returns `false` there (no theorem exercises that case).
-/

/-- Atom of the regex produced by `matchPattern`: a literal character,
an optional literal (`c?`), or `.*`. -/
inductive RAtom : Type
  | lit (c : Char)
  | optLit (c : Char)
  | star
deriving DecidableEq, Repr

/-- Parser state while reading the glob pattern, tracking what a
following `?` would quantify: `afterQuant` is a greedy quantifier that one
more `?` may make lazy, `afterLazy` a fully modified quantifier (as a lazy
`.*?` already is) after which another `?` has nothing to repeat. -/
inductive PState : Type
  | start
  | afterLit
  | afterStar
  | afterQuant
  | afterLazy
deriving DecidableEq, Repr

/-- Translate the pattern characters to regex atoms the way the source's
escape-then-star rewrite does.  A `?` after a literal makes it optional;
after `*` or after a greedy `?` it is a lazy modifier (same matched
language); anywhere else the regex is invalid (`none`), where the source
would throw from the RegExp constructor. -/
def globParseAux : List Char → List RAtom → PState → Option (List RAtom)
  | [], acc, _ => some acc.reverse
  | c :: cs, acc, st =>
    if c = '*' then globParseAux cs (RAtom.star :: acc) PState.afterStar
    else if c = '?' then
      match st, acc with
      | PState.afterLit, RAtom.lit d :: rest =>
        globParseAux cs (RAtom.optLit d :: rest) PState.afterQuant
      | PState.afterStar, a => globParseAux cs a PState.afterLazy
      | PState.afterQuant, a => globParseAux cs a PState.afterLazy
      | _, _ => none
    else globParseAux cs (RAtom.lit c :: acc) PState.afterLit

/-- ECMAScript line terminators, which `.` does not match. -/
def isLineTerm (c : Char) : Bool :=
  c = '\n' || c = '\r' || c = '\u2028' || c = '\u2029'

/-- Full-match semantics of the produced regex, by structural recursion on
a fuel bound.  Every recursive call strictly decreases
`atoms.length + s.length`, so the fuel supplied by `rmatch` below is never
exhausted and the `fuel = 0` branch is unreachable. -/
def rmatchFuel : Nat → List RAtom → List Char → Bool
  | 0, _, _ => false
  | _ + 1, [], [] => true
  | _ + 1, [], _ :: _ => false
  | _ + 1, RAtom.lit _ :: _, [] => false
  | fuel + 1, RAtom.lit c :: rest, d :: ds => c == d && rmatchFuel fuel rest ds
  | fuel + 1, RAtom.optLit c :: rest, s =>
    rmatchFuel fuel rest s ||
      (match s with
       | [] => false
       | d :: ds => c == d && rmatchFuel fuel rest ds)
  | fuel + 1, RAtom.star :: rest, s =>
    rmatchFuel fuel rest s ||
      (match s with
       | [] => false
       | d :: ds => !isLineTerm d && rmatchFuel fuel (RAtom.star :: rest) ds)

/-- Full-match of an atom list against the value characters. -/
def rmatch (atoms : List RAtom) (s : List Char) : Bool :=
  rmatchFuel (atoms.length + s.length + 1) atoms s

/-- Embedding of `matchPattern` from src/utils/index.ts. -/
def matchPattern (pattern value : String) : Bool :=
  match globParseAux pattern.data [] PState.start with
  | none => false
  | some atoms => rmatch atoms value.data

/-- Modelled from the spec's words, for comparison with `matchPattern`:
a glob where `*` is a wildcard and every other character — every regex
metacharacter included — is matched literally. -/
def specGlobAtoms (cs : List Char) : List RAtom :=
  cs.map (fun c => if c = '*' then RAtom.star else RAtom.lit c)

/-- Spec-level glob matching: `*` wildcard, everything else literal. -/
def specGlobMatch (pattern value : String) : Bool :=
  rmatch (specGlobAtoms pattern.data) value.data

/-! ### Data model (src/types/index.ts)

Identifier types are plain strings.  Optional fields are `Option`.
Optional boolean flags (such as `override?: boolean`) are modelled by a
`Bool` carrying their truthiness (`undefined` behaves as `false` at every
use site).  The `overrides` field of contexts and models is carried as
opaque data nowhere read by the embedded functions and is omitted. -/

structure Selectors where
  models : Option (List String)
  contexts : Option (List String)
deriving DecidableEq, Repr

structure SourceInfo where
  type : String
  preset : Option String
  filePath : String
deriving DecidableEq, Repr

structure RuleScope where
  paths : Option (List String)
deriving DecidableEq, Repr

structure RuleDefinition where
  id : String
  content : String
  targets : Option (List String)
  selectors : Option Selectors
  scope : Option RuleScope
  override : Bool
  source : Option SourceInfo
deriving DecidableEq, Repr

structure VariantWhen where
  model : Option String
  modelFamily : Option String
deriving DecidableEq, Repr

structure InstructionVariant where
  when : VariantWhen
  append : Option String
  prepend : Option String
  replace : Option String
deriving DecidableEq, Repr

structure AgentDefinition where
  id : String
  instructions : Option String
  variants : Option (List InstructionVariant)
  rules : Option (List String)
  skills : Option (List String)
  mcpServers : Option (List String)
  selectors : Option Selectors
  override : Bool
  source : Option SourceInfo
deriving DecidableEq, Repr

structure SkillDefinition where
  id : String
  grants : List String
  requiresMcpServers : Option (List String)
  selectors : Option Selectors
  override : Bool
  source : Option SourceInfo
deriving DecidableEq, Repr

structure McpServerDefinition where
  id : String
  transport : String
  command : Option String
  args : Option (List String)
  env : Option (List (String × String))
  cwd : Option String
  url : Option String
  headers : Option (List (String × String))
  selectors : Option Selectors
  override : Bool
  source : Option SourceInfo
deriving DecidableEq, Repr

structure EnableDisableSet where
  rules : Option (List String)
  agents : Option (List String)
  skills : Option (List String)
  mcpServers : Option (List String)
deriving DecidableEq, Repr

/-- Context definition.  The `override` flag is not declared on the
TypeScript interface, but the JSONC loader preserves whatever fields the
file holds and `addToRegistry` reads the flag's truthiness, so the model
carries it. -/
structure ContextDefinition where
  id : String
  description : Option String
  enable : Option EnableDisableSet
  disable : Option EnableDisableSet
  override : Bool
  source : Option SourceInfo
deriving DecidableEq, Repr

/-- Model profile definition (`override` carried as for contexts). -/
structure ModelDefinition where
  id : String
  description : Option String
  enable : Option EnableDisableSet
  disable : Option EnableDisableSet
  override : Bool
  source : Option SourceInfo
deriving DecidableEq, Repr

structure Registry where
  rules : List (String × RuleDefinition)
  agents : List (String × AgentDefinition)
  skills : List (String × SkillDefinition)
  mcpServers : List (String × McpServerDefinition)
  contexts : List (String × ContextDefinition)
  models : List (String × ModelDefinition)
deriving DecidableEq, Repr

/-- The `layers?.<name>?.enabled` toggle chain of RootConfig, flattened:
`none` stands for an absent `\x7benabled?: boolean\x7d` object or an absent
`enabled` field. -/
structure LayerToggles where
  base : Option Bool
  context : Option Bool
  model : Option Bool
  cli : Option Bool
deriving DecidableEq, Repr

structure PolicySettings where
  allowMissingDependencies : Option Bool
  allowOverrides : Option Bool
deriving DecidableEq, Repr

/-- RootConfig (fields `imports` and `export`, never read by the embedded
functions, are omitted; TypeScript keyword-clashing field names `extends`
and `include` are spelled `extendsPresets` and `includeDirs`). -/
structure RootConfig where
  version : Nat
  extendsPresets : Option (List String)
  includeDirs : Option (List (String × String))
  layers : Option LayerToggles
  enable : Option EnableDisableSet
  disable : Option EnableDisableSet
  policy : Option PolicySettings
deriving DecidableEq, Repr

structure CliOverlay where
  enable : Option EnableDisableSet
  disable : Option EnableDisableSet
deriving DecidableEq, Repr

structure ResolveInput where
  repoRoot : String
  model : Option String
  context : Option String
  cliOverlay : Option CliOverlay
deriving DecidableEq, Repr

structure PresetTraceEntry where
  ref : String
  resolvedPath : String
  version : Option String
deriving DecidableEq, Repr

structure LayerTraceEntry where
  layer : String
  enabled : Bool
  applied : EnableDisableSet
deriving DecidableEq, Repr

structure ActivationTraceEntry where
  id : String
  enabled : Bool
  reason : String
  source : Option SourceInfo
deriving DecidableEq, Repr

structure ResolutionTrace where
  presets : List PresetTraceEntry
  layers : List LayerTraceEntry
  activations : List ActivationTraceEntry
  warnings : List String
  errors : List String
deriving DecidableEq, Repr

structure ResolvedMeta where
  version : Nat
  model : Option String
  context : Option String
  timestamp : String
  configHash : String
deriving DecidableEq, Repr

structure ResolvedConfig where
  rules : List RuleDefinition
  agents : List AgentDefinition
  skills : List SkillDefinition
  mcpServers : List McpServerDefinition
  meta : ResolvedMeta
  trace : ResolutionTrace
deriving DecidableEq, Repr

/-- The all-absent EnableDisableSet, the `\x7b\x7d` literal of the source. -/
def emptyEDS : EnableDisableSet :=
  { rules := none, agents := none, skills := none, mcpServers := none }

/-- Read an optional id list with the source's `?? []` default. -/
def edsL (o : Option (List String)) : List String := o.getD []

/-! ### selectorsMatch (src/resolver/index.ts lines 23-44) -/

/-- Embedding of `selectorsMatch`: each constraint is checked only when
its list is present-and-non-empty and the corresponding input string is
truthy. -/
def selectorsMatch (selectors : Option Selectors) (model context : Option String) :
    Bool :=
  match selectors with
  | none => true
  | some sel =>
    (if sel.models.isSome && (edsL sel.models).length > 0 && truthyStr model then
      (edsL sel.models).any (fun p => matchPattern p (model.getD ""))
     else true) &&
    (if sel.contexts.isSome && (edsL sel.contexts).length > 0 && truthyStr context
     then (edsL sel.contexts).contains (context.getD "")
     else true)

/-! ### applyInstructionVariants (src/resolver/index.ts lines 49-85) -/

/-- Match condition of one variant: `when.model` or `when.modelFamily`
glob-matches the selected model (both slots use `matchPattern`). -/
def variantMatches (model : String) (v : InstructionVariant) : Bool :=
  (truthyStr v.when.model && matchPattern (v.when.model.getD "") model) ||
    (truthyStr v.when.modelFamily && matchPattern (v.when.modelFamily.getD "") model)

/-- Loop body of `applyInstructionVariants`: on a match, a truthy
`replace` wins outright, otherwise truthy `prepend`/`append` are joined
around the accumulator with a blank-line separator. -/
def variantStep (model : String) (acc : String) (v : InstructionVariant) : String :=
  if variantMatches model v then
    if truthyStr v.replace then v.replace.getD ""
    else
      let acc1 := if truthyStr v.prepend then v.prepend.getD "" ++ "\n\n" ++ acc else acc
      if truthyStr v.append then acc1 ++ "\n\n" ++ v.append.getD "" else acc1
  else acc

/-- Embedding of `applyInstructionVariants`. -/
def applyInstructionVariants (agent : AgentDefinition) (model : Option String) :
    AgentDefinition :=
  if agent.variants.isNone || !truthyStr model then agent
  else
    { agent with
      instructions :=
        some ((agent.variants.getD []).foldl
          (fun acc v => variantStep (model.getD "") acc v)
          (agent.instructions.getD "")) }

/-! ### Layered merge (src/resolver/index.ts lines 106-222) -/

/-- Running per-kind accumulators, the `enabled`/`disabled` locals of the
source initialised with four empty arrays. -/
structure EDS4 where
  rules : List String
  agents : List String
  skills : List String
  mcpServers : List String
deriving DecidableEq, Repr

def emptyEDS4 : EDS4 := { rules := [], agents := [], skills := [], mcpServers := [] }

/-- Push one layer's EnableDisableSet onto the accumulators
(`acc.<kind>.push(...(layer.<kind> ?? []))`). -/
def pushEDS (acc : EDS4) (e : EnableDisableSet) : EDS4 :=
  { rules := acc.rules ++ edsL e.rules
    agents := acc.agents ++ edsL e.agents
    skills := acc.skills ++ edsL e.skills
    mcpServers := acc.mcpServers ++ edsL e.mcpServers }

/-- The `rootConfig.layers?.<name>?.enabled ?? true` toggle. -/
def layerOn (cfg : RootConfig) (get : LayerToggles → Option Bool) : Bool :=
  ((cfg.layers.bind get).getD true)

/-- Output of the four-layer merge: raw concatenated enable/disable lists,
the layer trace, and warnings raised while merging. -/
structure MergeOut where
  enabled : EDS4
  disabled : EDS4
  layers : List LayerTraceEntry
  warnings : List String
deriving DecidableEq, Repr

/-- Embedding of steps 1-4 of `resolveFromRegistry`: the Base, Context,
Model and CLI layers applied in order. -/
def mergeLayers (registry : Registry) (rootConfig : RootConfig) (input : ResolveInput) :
    MergeOut :=
  let st0 : MergeOut :=
    { enabled := emptyEDS4, disabled := emptyEDS4, layers := [], warnings := [] }
  -- 1. Base layer
  let st1 : MergeOut :=
    if layerOn rootConfig (·.base) then
      let baseEnable := rootConfig.enable.getD emptyEDS
      let baseDisable := rootConfig.disable.getD emptyEDS
      { st0 with
        enabled := pushEDS st0.enabled baseEnable
        disabled := pushEDS st0.disabled baseDisable
        layers := st0.layers ++ [{ layer := "base", enabled := true, applied := baseEnable }] }
    else
      { st0 with layers := st0.layers ++ [{ layer := "base", enabled := false, applied := emptyEDS }] }
  -- 2. Context layer
  let st2 : MergeOut :=
    if layerOn rootConfig (·.context) && truthyStr input.context then
      match mapGet registry.contexts (input.context.getD "") with
      | some contextDef =>
        let ce := contextDef.enable.getD emptyEDS
        let cd := contextDef.disable.getD emptyEDS
        { st1 with
          enabled := pushEDS st1.enabled ce
          disabled := pushEDS st1.disabled cd
          layers := st1.layers ++ [{ layer := "context", enabled := true, applied := ce }] }
      | none =>
        { st1 with
          warnings := st1.warnings ++
            ["Context \"" ++ input.context.getD "" ++ "\" not found in registry"]
          layers := st1.layers ++ [{ layer := "context", enabled := false, applied := emptyEDS }] }
    else
      { st1 with layers := st1.layers ++ [{ layer := "context", enabled := false, applied := emptyEDS }] }
  -- 3. Model layer
  let st3 : MergeOut :=
    if layerOn rootConfig (·.model) && truthyStr input.model then
      match mapGet registry.models (input.model.getD "") with
      | some modelDef =>
        let me := modelDef.enable.getD emptyEDS
        let md := modelDef.disable.getD emptyEDS
        { st2 with
          enabled := pushEDS st2.enabled me
          disabled := pushEDS st2.disabled md
          layers := st2.layers ++ [{ layer := "model", enabled := true, applied := me }] }
      | none =>
        { st2 with layers := st2.layers ++ [{ layer := "model", enabled := false, applied := emptyEDS }] }
    else
      { st2 with layers := st2.layers ++ [{ layer := "model", enabled := false, applied := emptyEDS }] }
  -- 4. CLI layer
  match input.cliOverlay with
  | some overlay =>
    if layerOn rootConfig (·.cli) then
      let ce := overlay.enable.getD emptyEDS
      let cd := overlay.disable.getD emptyEDS
      { st3 with
        enabled := pushEDS st3.enabled ce
        disabled := pushEDS st3.disabled cd
        layers := st3.layers ++ [{ layer := "cli", enabled := true, applied := ce }] }
    else
      { st3 with layers := st3.layers ++ [{ layer := "cli", enabled := false, applied := emptyEDS }] }
  | none =>
    { st3 with layers := st3.layers ++ [{ layer := "cli", enabled := false, applied := emptyEDS }] }

/-! ### Dedupe, subtraction and dependency closure
(src/resolver/index.ts lines 224-275) -/

/-- The `new Set(enabled.k)` minus `disabled.k` step: dedupe the enable
list, then delete every disabled id. -/
def minusSet (en dis : List String) : List String :=
  (setFromList en).filter (fun id => !(setFromList dis).contains id)

/-- Closure state: the three id sets that dependency closure can grow. -/
structure CloseState where
  rules : List String
  skills : List String
  mcpServers : List String
deriving DecidableEq, Repr

/-- Guarded `Set.add`: skip ids present in the disabled set. -/
def guardedAdd (dis : List String) (acc : List String) (x : String) : List String :=
  if dis.contains x then acc else setAdd acc x

/-- Fold `guardedAdd` over a dependency list. -/
def guardedAdds (dis acc xs : List String) : List String :=
  xs.foldl (guardedAdd dis) acc

/-- Pass-1 body: an enabled agent pulls in its rules, skills and MCP
servers, each unless disabled. -/
def closeAgentsStep (registry : Registry) (disRules disSkills disMcp : List String)
    (st : CloseState) (agentId : String) : CloseState :=
  match mapGet registry.agents agentId with
  | none => st
  | some agent =>
    { rules := guardedAdds disRules st.rules (agent.rules.getD [])
      skills := guardedAdds disSkills st.skills (agent.skills.getD [])
      mcpServers := guardedAdds disMcp st.mcpServers (agent.mcpServers.getD []) }

/-- Pass-2 body: an enabled skill pulls in its required MCP servers,
unless disabled. -/
def closeSkillsStep (registry : Registry) (disMcp : List String)
    (acc : List String) (skillId : String) : List String :=
  match mapGet registry.skills skillId with
  | none => acc
  | some skill => guardedAdds disMcp acc (skill.requiresMcpServers.getD [])

/-- Embedding of step 5 of `resolveFromRegistry`: the two closure passes.
Pass 2 iterates the skill set as it stands after pass 1. -/
def closeDeps (registry : Registry) (disRules disSkills disMcp : List String)
    (enAgents : List String) (st0 : CloseState) : CloseState :=
  let st1 := enAgents.foldl (closeAgentsStep registry disRules disSkills disMcp) st0
  { st1 with
    mcpServers := st1.skills.foldl (closeSkillsStep registry disMcp) st1.mcpServers }

/-! ### Acceptance loops (src/resolver/index.ts lines 277-389) -/

/-- Accumulator of one acceptance loop. -/
structure Collect (α : Type) where
  active : List α
  activations : List ActivationTraceEntry
  warnings : List String
  errors : List String
deriving Repr

def collectInit {α : Type} : Collect α :=
  { active := [], activations := [], warnings := [], errors := [] }

/-- The not-found error string pushed by the acceptance loops. -/
def notFoundMsg (kindLabel id : String) : String :=
  kindLabel ++ " \"" ++ id ++ "\" not found in registry"

/-- The selector-mismatch warning string pushed by the acceptance loops. -/
def selSkipMsg (kindLabel id : String) : String :=
  kindLabel ++ " \"" ++ id ++ "\" skipped: selectors don\x27t match model/context"

/-- Body of the four acceptance loops, parameterised by the kind's lookup,
selector test, acceptance transform (identity except agents), source
projection and message strings. -/
def collectStep {α : Type} (lookup : String → Option α) (sel : α → Bool)
    (transform : α → α) (getSource : α → Option SourceInfo)
    (kindLabel reason : String) (allowMissing : Bool)
    (st : Collect α) (id : String) : Collect α :=
  match lookup id with
  | none =>
    if allowMissing then st
    else { st with errors := st.errors ++ [notFoundMsg kindLabel id] }
  | some d =>
    if !sel d then
      { st with warnings := st.warnings ++ [selSkipMsg kindLabel id] }
    else
      { st with
        active := st.active ++ [transform d]
        activations := st.activations ++
          [{ id := id, enabled := true, reason := reason, source := getSource d }] }

/-- Run one acceptance loop over a closed-enabled id set. -/
def collectAll {α : Type} (lookup : String → Option α) (sel : α → Bool)
    (transform : α → α) (getSource : α → Option SourceInfo)
    (kindLabel reason : String) (allowMissing : Bool) (ids : List String) :
    Collect α :=
  ids.foldl (collectStep lookup sel transform getSource kindLabel reason allowMissing)
    collectInit

/-! ### Config hash assembly (src/resolver/index.ts lines 391-400)

`JSON.stringify(\x7brules, agents, skills, mcpServers, model, context\x7d)`:
keys in declaration order, `model`/`context` omitted when `undefined`. -/

/-- JSON string-character escaping as performed by `JSON.stringify`. -/
def jsonEscChar (c : Char) : String :=
  if c = '"' then "\\\""
  else if c = '\\' then "\\\\"
  else if c = '\x08' then "\\b"
  else if c = '\x0c' then "\\f"
  else if c = '\n' then "\\n"
  else if c = '\r' then "\\r"
  else if c = '\t' then "\\t"
  else if c.toNat < 32 then
    "\\u00" ++ String.mk [Nat.digitChar (c.toNat / 16), Nat.digitChar (c.toNat % 16)]
  else String.singleton c

def jsonQuote (s : String) : String :=
  "\"" ++ String.join (s.data.map jsonEscChar) ++ "\""

def jsonStrArr (xs : List String) : String :=
  "[" ++ String.intercalate "," (xs.map jsonQuote) ++ "]"

/-- The `configData` JSON string fed to `simpleHash`. -/
def configDataJson (ruleIds agentIds skillIds mcpIds : List String)
    (model context : Option String) : String :=
  "\x7b\"rules\":" ++ jsonStrArr ruleIds ++
    ",\"agents\":" ++ jsonStrArr agentIds ++
    ",\"skills\":" ++ jsonStrArr skillIds ++
    ",\"mcpServers\":" ++ jsonStrArr mcpIds ++
    (match model with
     | some m => ",\"model\":" ++ jsonQuote m
     | none => "") ++
    (match context with
     | some c => ",\"context\":" ++ jsonQuote c
     | none => "") ++ "\x7d"

/-! ### resolveFromRegistry (src/resolver/index.ts lines 90-416)

The clock read `new Date().toISOString()` for `meta.timestamp` is modelled
by the explicit `now` parameter. -/

/-- The final enabled-agents set: deduped union of layer enables minus the
disables (closure never adds agents). -/
def resolveEnabledAgents (registry : Registry) (rootConfig : RootConfig)
    (input : ResolveInput) : List String :=
  let m := mergeLayers registry rootConfig input
  minusSet m.enabled.agents m.disabled.agents

/-- The closed-enabled id sets: union-minus-disable per kind, then the two
closure passes. -/
def resolveClosed (registry : Registry) (rootConfig : RootConfig)
    (input : ResolveInput) : CloseState :=
  let m := mergeLayers registry rootConfig input
  closeDeps registry (setFromList m.disabled.rules) (setFromList m.disabled.skills)
    (setFromList m.disabled.mcpServers)
    (minusSet m.enabled.agents m.disabled.agents)
    { rules := minusSet m.enabled.rules m.disabled.rules
      skills := minusSet m.enabled.skills m.disabled.skills
      mcpServers := minusSet m.enabled.mcpServers m.disabled.mcpServers }

/-- The `policy.allowMissingDependencies ?? false` read. -/
def resolveAllowMissing (rootConfig : RootConfig) : Bool :=
  (rootConfig.policy.bind (·.allowMissingDependencies)).getD false

def resolveFromRegistry (registry : Registry) (rootConfig : RootConfig)
    (input : ResolveInput) (now : String) : ResolvedConfig :=
  let m := mergeLayers registry rootConfig input
  -- Dedupe, subtraction and the two closure passes (steps 5)
  let enAgents := resolveEnabledAgents registry rootConfig input
  let closed := resolveClosed registry rootConfig input
  -- 6. Validate selectors and collect active items
  let allowMissingDeps := resolveAllowMissing rootConfig
  let cr := collectAll (mapGet registry.rules)
    (fun r => selectorsMatch r.selectors input.model input.context)
    (fun r => r) (fun r => r.source) "Rule"
    "explicitly enabled or via dependency" allowMissingDeps closed.rules
  let ca := collectAll (mapGet registry.agents)
    (fun a => selectorsMatch a.selectors input.model input.context)
    (fun a => applyInstructionVariants a input.model) (fun a => a.source) "Agent"
    "explicitly enabled" allowMissingDeps enAgents
  let cs := collectAll (mapGet registry.skills)
    (fun s => selectorsMatch s.selectors input.model input.context)
    (fun s => s) (fun s => s.source) "Skill"
    "explicitly enabled or via agent dependency" allowMissingDeps closed.skills
  let cm := collectAll (mapGet registry.mcpServers)
    (fun s => selectorsMatch s.selectors input.model input.context)
    (fun s => s) (fun s => s.source) "MCP server"
    "explicitly enabled or via skill dependency" allowMissingDeps closed.mcpServers
  -- Compute config hash
  let configHash := simpleHash (configDataJson
    (cr.active.map (·.id)) (ca.active.map (·.id))
    (cs.active.map (·.id)) (cm.active.map (·.id)) input.model input.context)
  { rules := cr.active
    agents := ca.active
    skills := cs.active
    mcpServers := cm.active
    meta :=
      { version := 1, model := input.model, context := input.context
        timestamp := now, configHash := configHash }
    trace :=
      { presets := []
        layers := m.layers
        activations := cr.activations ++ ca.activations ++ cs.activations ++ cm.activations
        warnings := m.warnings ++ cr.warnings ++ ca.warnings ++ cs.warnings ++ cm.warnings
        errors := cr.errors ++ ca.errors ++ cs.errors ++ cm.errors } }

/-! ### Registry construction (src/loaders/index.ts lines 199-380)

Disk interaction is abstracted: the outcome of the per-preset try block
(`resolvePresetPath` + `loadPresetManifest` + `loadDefinitionsFromSource`)
is an input per preset reference, and the repo's own definition load —
which runs outside any try/catch — is an `Except` input whose error case
propagates.  Source tagging happens inside `loadDefinitionsFromSource`,
so the supplied definitions are taken as already tagged. -/

/-- The `definitions` argument of `addToRegistry`: each kind's list may be
absent (`if (!items) return`). -/
structure Definitions where
  rules : Option (List RuleDefinition)
  agents : Option (List AgentDefinition)
  skills : Option (List SkillDefinition)
  mcpServers : Option (List McpServerDefinition)
  contexts : Option (List ContextDefinition)
  models : Option (List ModelDefinition)
deriving DecidableEq, Repr

def emptyDefinitions : Definitions :=
  { rules := none, agents := none, skills := none, mcpServers := none
    contexts := none, models := none }

/-- The duplicate-id message of `addWithCollisionCheck`. -/
def duplicateMsg (typeName id : String) : String :=
  "Duplicate " ++ typeName ++ " id \"" ++ id ++ "\" found. Use \x27override: true\x27 to override."

/-- Loop body of `addWithCollisionCheck`: replace on
`allowOverrides && item.override`, otherwise record the duplicate error
and keep the existing entry; fresh ids are inserted. -/
def addItemStep {α : Type} (getId : α → String) (getOverride : α → Bool)
    (allowOverrides : Bool) (typeName : String)
    (st : List (String × α) × List String) (item : α) :
    List (String × α) × List String :=
  match mapGet st.1 (getId item) with
  | some _ =>
    if allowOverrides && getOverride item then (mapSet st.1 (getId item) item, st.2)
    else (st.1, st.2 ++ [duplicateMsg typeName (getId item)])
  | none => (mapSet st.1 (getId item) item, st.2)

/-- Embedding of `addWithCollisionCheck` for one kind. -/
def addWithCollisionCheck {α : Type} (getId : α → String) (getOverride : α → Bool)
    (allowOverrides : Bool) (typeName : String)
    (m : List (String × α)) (items : Option (List α)) (errs : List String) :
    List (String × α) × List String :=
  match items with
  | none => (m, errs)
  | some its => its.foldl (addItemStep getId getOverride allowOverrides typeName) (m, errs)

/-- Embedding of `addToRegistry`: the six kinds processed in source order,
errors accumulated across kinds. -/
def addToRegistry (registry : Registry) (definitions : Definitions)
    (allowOverrides : Bool) : Registry × List String :=
  let (rules, e1) := addWithCollisionCheck (fun r : RuleDefinition => r.id)
    (fun r => r.override) allowOverrides "rule" registry.rules definitions.rules []
  let (agents, e2) := addWithCollisionCheck (fun a : AgentDefinition => a.id)
    (fun a => a.override) allowOverrides "agent" registry.agents definitions.agents e1
  let (skills, e3) := addWithCollisionCheck (fun s : SkillDefinition => s.id)
    (fun s => s.override) allowOverrides "skill" registry.skills definitions.skills e2
  let (mcps, e4) := addWithCollisionCheck (fun s : McpServerDefinition => s.id)
    (fun s => s.override) allowOverrides "mcp" registry.mcpServers definitions.mcpServers e3
  let (ctxs, e5) := addWithCollisionCheck (fun c : ContextDefinition => c.id)
    (fun c => c.override) allowOverrides "context" registry.contexts definitions.contexts e4
  let (mdls, e6) := addWithCollisionCheck (fun m : ModelDefinition => m.id)
    (fun m => m.override) allowOverrides "model" registry.models definitions.models e5
  ({ rules := rules, agents := agents, skills := skills, mcpServers := mcps
     contexts := ctxs, models := mdls }, e6)

/-- Embedding of `createEmptyRegistry`. -/
def createEmptyRegistry : Registry :=
  { rules := [], agents := [], skills := [], mcpServers := [], contexts := [], models := [] }

/-- Outcome of the per-preset try block of `loadFullRegistry`, abstracting
the filesystem: path resolution threw, the manifest lookup threw
(`loadPresetManifest` found none of the candidate files), or definitions
were loaded. -/
inductive PresetFetch : Type
  | resolveFail (msg : String)
  | noManifest (presetPath : String)
  | ok (defs : Definitions)
deriving Repr

/-- The catch-block message of `loadFullRegistry`. -/
def presetErrMsg (ref msg : String) : String :=
  "Failed to load preset \"" ++ ref ++ "\": " ++ msg

/-- The throw message of `loadPresetManifest` when no manifest file
exists in the preset directory. -/
def noManifestMsg (presetPath : String) : String :=
  "No preset manifest found at " ++ presetPath ++
    ". Expected one of: ai.preset.jsonc, ai.preset.json"

/-- One iteration of the preset loop: exceptions from the try block become
error strings and the loop continues. -/
def loadPresetStep (allowOverrides : Bool) (fetch : String → PresetFetch)
    (st : Registry × List String) (presetRef : String) : Registry × List String :=
  match fetch presetRef with
  | PresetFetch.resolveFail msg => (st.1, st.2 ++ [presetErrMsg presetRef msg])
  | PresetFetch.noManifest p => (st.1, st.2 ++ [presetErrMsg presetRef (noManifestMsg p)])
  | PresetFetch.ok defs =>
    let (reg2, addErrors) := addToRegistry st.1 defs allowOverrides
    (reg2, st.2 ++ addErrors)

/-- Embedding of `loadFullRegistry`: presets in `extends` order first
(each under the try/catch), then the repo's own definitions, whose load
failure — outside any try — aborts with the thrown message. -/
def loadFullRegistry (fetch : String → PresetFetch)
    (repoDefs : Except String Definitions) (rootConfig : RootConfig) :
    Except String (Registry × List String) :=
  let allowOverrides := (rootConfig.policy.bind (·.allowOverrides)).getD true
  let st := (rootConfig.extendsPresets.getD []).foldl
    (loadPresetStep allowOverrides fetch) (createEmptyRegistry, [])
  match repoDefs with
  | Except.error msg => Except.error msg
  | Except.ok defs =>
    let (reg2, repoErrors) := addToRegistry st.1 defs allowOverrides
    Except.ok (reg2, st.2 ++ repoErrors)

/-! ### Well-formedness and concrete fixtures

Registries reachable from `createEmptyRegistry`/`addToRegistry` key every
definition by its own id; `registryWF` states that invariant, assumed by
the theorems that relate active definitions back to their ids. -/

@[reducible] def registryWF (reg : Registry) : Prop :=
  (∀ p ∈ reg.rules, p.2.id = p.1) ∧ (∀ p ∈ reg.agents, p.2.id = p.1) ∧
    (∀ p ∈ reg.skills, p.2.id = p.1) ∧ (∀ p ∈ reg.mcpServers, p.2.id = p.1)

def mkRule (i : String) (sel : Option Selectors) : RuleDefinition :=
  { id := i, content := "content", targets := none, selectors := sel, scope := none
    override := false, source := none }

def mkAgent (i : String) (instructions : Option String)
    (variants : Option (List InstructionVariant)) (skills : List String) :
    AgentDefinition :=
  { id := i, instructions := instructions, variants := variants, rules := none
    skills := some skills, mcpServers := none, selectors := none
    override := false, source := none }

def mkSkill (i : String) (req : List String) : SkillDefinition :=
  { id := i, grants := [], requiresMcpServers := some req, selectors := none
    override := false, source := none }

def mkMcp (i : String) : McpServerDefinition :=
  { id := i, transport := "stdio", command := none, args := none, env := none
    cwd := none, url := none, headers := none, selectors := none
    override := false, source := none }

def edsOf (rules agents skills mcpServers : List String) : EnableDisableSet :=
  { rules := some rules, agents := some agents, skills := some skills
    mcpServers := some mcpServers }

def cfgOf (enable disable : EnableDisableSet) : RootConfig :=
  { version := 1, extendsPresets := none, includeDirs := none, layers := none
    enable := some enable, disable := some disable, policy := none }

def inpPlain : ResolveInput :=
  { repoRoot := "/repo", model := none, context := none, cliOverlay := none }

def inpModel (m : String) : ResolveInput :=
  { repoRoot := "/repo", model := some m, context := none, cliOverlay := none }

/-- Registry holding two selector-free rules. -/
def regTwoRules : Registry :=
  { createEmptyRegistry with
    rules := [("rule:a", mkRule "rule:a" none), ("rule:b", mkRule "rule:b" none)] }

/-- Registry with the three-rank chain agent:a → skill:s → mcp:m. -/
def regClosure : Registry :=
  { createEmptyRegistry with
    agents := [("agent:a", mkAgent "agent:a" (some "base") none ["skill:s"])]
    skills := [("skill:s", mkSkill "skill:s" ["mcp:m"])]
    mcpServers := [("mcp:m", mkMcp "mcp:m")] }

/-- Root config extending one preset reference. -/
def cfgPreset : RootConfig :=
  { version := 1, extendsPresets := some ["demo-preset"], includeDirs := none
    layers := none, enable := none, disable := none, policy := none }

/-- Abstract filesystem where every preset directory lacks a manifest. -/
def fetchNoManifest : String → PresetFetch :=
  fun _ => PresetFetch.noManifest "/presets/demo"

/-! ## Supporting lemmas -/

theorem contains_iff (l : List String) (a : String) : l.contains a = true ↔ a ∈ l := by
  simp

theorem mem_setAdd {s : List String} {x a : String} :
    a ∈ setAdd s x ↔ a ∈ s ∨ a = x := by
  by_cases hx : x ∈ s
  · simp only [setAdd, if_pos hx]
    constructor
    · exact Or.inl
    · rintro (h | rfl)
      · exact h
      · exact hx
  · simp [setAdd, hx]

theorem mem_foldl_setAdd (xs : List String) (init : List String) (a : String) :
    a ∈ xs.foldl setAdd init ↔ a ∈ init ∨ a ∈ xs := by
  induction xs generalizing init with
  | nil => simp
  | cons x xs ih =>
    simp only [List.foldl_cons, ih, mem_setAdd, List.mem_cons]
    tauto

theorem mem_setFromList {xs : List String} {a : String} :
    a ∈ setFromList xs ↔ a ∈ xs := by
  simp [setFromList, mem_foldl_setAdd]

theorem mem_guardedAdd {dis acc : List String} {x a : String} :
    a ∈ guardedAdd dis acc x ↔ a ∈ acc ∨ (a = x ∧ x ∉ dis) := by
  by_cases hx : x ∈ dis
  · rw [guardedAdd, if_pos ((contains_iff dis x).mpr hx)]
    constructor
    · exact Or.inl
    · rintro (h | ⟨rfl, hxd⟩)
      · exact h
      · exact absurd hx hxd
  · rw [guardedAdd, if_neg (fun h => hx ((contains_iff dis x).mp h))]
    simp [mem_setAdd, hx]

theorem mem_guardedAdds {dis : List String} (xs : List String) (acc : List String)
    (a : String) :
    a ∈ guardedAdds dis acc xs ↔ a ∈ acc ∨ (a ∈ xs ∧ a ∉ dis) := by
  induction xs generalizing acc with
  | nil => simp [guardedAdds]
  | cons x xs ih =>
    show a ∈ guardedAdds dis (guardedAdd dis acc x) xs ↔ _
    rw [ih, mem_guardedAdd]
    simp only [List.mem_cons]
    constructor
    · rintro ((h | ⟨rfl, hd⟩) | ⟨hm, hd⟩)
      · exact Or.inl h
      · exact Or.inr ⟨Or.inl rfl, hd⟩
      · exact Or.inr ⟨Or.inr hm, hd⟩
    · rintro (h | ⟨(rfl | hm), hd⟩)
      · exact Or.inl (Or.inl h)
      · exact Or.inl (Or.inr ⟨rfl, hd⟩)
      · exact Or.inr ⟨hm, hd⟩

theorem mem_minusSet {en dis : List String} {a : String} :
    a ∈ minusSet en dis ↔ a ∈ en ∧ a ∉ dis := by
  simp [minusSet, List.mem_filter, mem_setFromList]

/-! Characterisations of the two closure passes. -/

theorem mem_agentsFold_rules (registry : Registry) (dR dS dM : List String)
    (gs : List String) (st : CloseState) (a : String) :
    a ∈ (gs.foldl (closeAgentsStep registry dR dS dM) st).rules ↔
      a ∈ st.rules ∨ ∃ g ∈ gs, ∃ ag, mapGet registry.agents g = some ag ∧
        a ∈ ag.rules.getD [] ∧ a ∉ dR := by
  induction gs generalizing st with
  | nil => simp
  | cons g gs ih =>
    show a ∈ (gs.foldl _ (closeAgentsStep registry dR dS dM st g)).rules ↔ _
    rw [ih]
    cases hg : mapGet registry.agents g with
    | none =>
      simp only [closeAgentsStep, hg, List.mem_cons]
      constructor
      · rintro (h | ⟨g2, hg2, hrest⟩)
        · exact Or.inl h
        · exact Or.inr ⟨g2, Or.inr hg2, hrest⟩
      · rintro (h | ⟨g2, (rfl | hg2), ag, hag, hrest⟩)
        · exact Or.inl h
        · rw [hg] at hag; cases hag
        · exact Or.inr ⟨g2, hg2, ag, hag, hrest⟩
    | some ag0 =>
      simp only [closeAgentsStep, hg, List.mem_cons]
      rw [mem_guardedAdds]
      constructor
      · rintro ((h | ⟨hm, hd⟩) | ⟨g2, hg2, hrest⟩)
        · exact Or.inl h
        · exact Or.inr ⟨g, Or.inl rfl, ag0, hg, hm, hd⟩
        · exact Or.inr ⟨g2, Or.inr hg2, hrest⟩
      · rintro (h | ⟨g2, (rfl | hg2), ag, hag, hm, hd⟩)
        · exact Or.inl (Or.inl h)
        · rw [hg] at hag; cases hag; exact Or.inl (Or.inr ⟨hm, hd⟩)
        · exact Or.inr ⟨g2, hg2, ag, hag, hm, hd⟩

theorem mem_agentsFold_skills (registry : Registry) (dR dS dM : List String)
    (gs : List String) (st : CloseState) (a : String) :
    a ∈ (gs.foldl (closeAgentsStep registry dR dS dM) st).skills ↔
      a ∈ st.skills ∨ ∃ g ∈ gs, ∃ ag, mapGet registry.agents g = some ag ∧
        a ∈ ag.skills.getD [] ∧ a ∉ dS := by
  induction gs generalizing st with
  | nil => simp
  | cons g gs ih =>
    show a ∈ (gs.foldl _ (closeAgentsStep registry dR dS dM st g)).skills ↔ _
    rw [ih]
    cases hg : mapGet registry.agents g with
    | none =>
      simp only [closeAgentsStep, hg, List.mem_cons]
      constructor
      · rintro (h | ⟨g2, hg2, hrest⟩)
        · exact Or.inl h
        · exact Or.inr ⟨g2, Or.inr hg2, hrest⟩
      · rintro (h | ⟨g2, (rfl | hg2), ag, hag, hrest⟩)
        · exact Or.inl h
        · rw [hg] at hag; cases hag
        · exact Or.inr ⟨g2, hg2, ag, hag, hrest⟩
    | some ag0 =>
      simp only [closeAgentsStep, hg, List.mem_cons]
      rw [mem_guardedAdds]
      constructor
      · rintro ((h | ⟨hm, hd⟩) | ⟨g2, hg2, hrest⟩)
        · exact Or.inl h
        · exact Or.inr ⟨g, Or.inl rfl, ag0, hg, hm, hd⟩
        · exact Or.inr ⟨g2, Or.inr hg2, hrest⟩
      · rintro (h | ⟨g2, (rfl | hg2), ag, hag, hm, hd⟩)
        · exact Or.inl (Or.inl h)
        · rw [hg] at hag; cases hag; exact Or.inl (Or.inr ⟨hm, hd⟩)
        · exact Or.inr ⟨g2, hg2, ag, hag, hm, hd⟩

theorem mem_agentsFold_mcp (registry : Registry) (dR dS dM : List String)
    (gs : List String) (st : CloseState) (a : String) :
    a ∈ (gs.foldl (closeAgentsStep registry dR dS dM) st).mcpServers ↔
      a ∈ st.mcpServers ∨ ∃ g ∈ gs, ∃ ag, mapGet registry.agents g = some ag ∧
        a ∈ ag.mcpServers.getD [] ∧ a ∉ dM := by
  induction gs generalizing st with
  | nil => simp
  | cons g gs ih =>
    show a ∈ (gs.foldl _ (closeAgentsStep registry dR dS dM st g)).mcpServers ↔ _
    rw [ih]
    cases hg : mapGet registry.agents g with
    | none =>
      simp only [closeAgentsStep, hg, List.mem_cons]
      constructor
      · rintro (h | ⟨g2, hg2, hrest⟩)
        · exact Or.inl h
        · exact Or.inr ⟨g2, Or.inr hg2, hrest⟩
      · rintro (h | ⟨g2, (rfl | hg2), ag, hag, hrest⟩)
        · exact Or.inl h
        · rw [hg] at hag; cases hag
        · exact Or.inr ⟨g2, hg2, ag, hag, hrest⟩
    | some ag0 =>
      simp only [closeAgentsStep, hg, List.mem_cons]
      rw [mem_guardedAdds]
      constructor
      · rintro ((h | ⟨hm, hd⟩) | ⟨g2, hg2, hrest⟩)
        · exact Or.inl h
        · exact Or.inr ⟨g, Or.inl rfl, ag0, hg, hm, hd⟩
        · exact Or.inr ⟨g2, Or.inr hg2, hrest⟩
      · rintro (h | ⟨g2, (rfl | hg2), ag, hag, hm, hd⟩)
        · exact Or.inl (Or.inl h)
        · rw [hg] at hag; cases hag; exact Or.inl (Or.inr ⟨hm, hd⟩)
        · exact Or.inr ⟨g2, hg2, ag, hag, hm, hd⟩

theorem mem_skillsFold_mcp (registry : Registry) (dM : List String)
    (sks : List String) (acc : List String) (a : String) :
    a ∈ sks.foldl (closeSkillsStep registry dM) acc ↔
      a ∈ acc ∨ ∃ s ∈ sks, ∃ sk, mapGet registry.skills s = some sk ∧
        a ∈ sk.requiresMcpServers.getD [] ∧ a ∉ dM := by
  induction sks generalizing acc with
  | nil => simp
  | cons s sks ih =>
    show a ∈ sks.foldl _ (closeSkillsStep registry dM acc s) ↔ _
    rw [ih]
    cases hs : mapGet registry.skills s with
    | none =>
      simp only [closeSkillsStep, hs, List.mem_cons]
      constructor
      · rintro (h | ⟨s2, hs2, hrest⟩)
        · exact Or.inl h
        · exact Or.inr ⟨s2, Or.inr hs2, hrest⟩
      · rintro (h | ⟨s2, (rfl | hs2), sk, hsk, hrest⟩)
        · exact Or.inl h
        · rw [hs] at hsk; cases hsk
        · exact Or.inr ⟨s2, hs2, sk, hsk, hrest⟩
    | some sk0 =>
      simp only [closeSkillsStep, hs, List.mem_cons]
      rw [mem_guardedAdds]
      constructor
      · rintro ((h | ⟨hm, hd⟩) | ⟨s2, hs2, hrest⟩)
        · exact Or.inl h
        · exact Or.inr ⟨s, Or.inl rfl, sk0, hs, hm, hd⟩
        · exact Or.inr ⟨s2, Or.inr hs2, hrest⟩
      · rintro (h | ⟨s2, (rfl | hs2), sk, hsk, hm, hd⟩)
        · exact Or.inl (Or.inl h)
        · rw [hs] at hsk; cases hsk; exact Or.inl (Or.inr ⟨hm, hd⟩)
        · exact Or.inr ⟨s2, hs2, sk, hsk, hm, hd⟩

/-! Characterisations of the acceptance loops. -/

theorem collect_active_fold {α : Type} (lookup : String → Option α) (sel : α → Bool)
    (transform : α → α) (getSource : α → Option SourceInfo) (kindLabel reason : String)
    (allowMissing : Bool) (ids : List String) (st : Collect α) (d : α) :
    d ∈ (ids.foldl
        (collectStep lookup sel transform getSource kindLabel reason allowMissing)
        st).active ↔
      d ∈ st.active ∨
        ∃ id ∈ ids, ∃ v, lookup id = some v ∧ sel v = true ∧ d = transform v := by
  induction ids generalizing st with
  | nil => simp
  | cons i ids ih =>
    show d ∈ (ids.foldl _ (collectStep lookup sel transform getSource
      kindLabel reason allowMissing st i)).active ↔ _
    rw [ih]
    have hstep : ∀ v, lookup i = some v → sel v = true →
        (collectStep lookup sel transform getSource kindLabel reason allowMissing
          st i).active = st.active ++ [transform v] := by
      intro v hv hs
      simp [collectStep, hv, hs]
    cases hi : lookup i with
    | none =>
      have heq : (collectStep lookup sel transform getSource kindLabel reason
          allowMissing st i).active = st.active := by
        cases allowMissing <;> simp [collectStep, hi]
      rw [heq]
      simp only [List.mem_cons]
      constructor
      · rintro (h | ⟨i2, h2, hrest⟩)
        · exact Or.inl h
        · exact Or.inr ⟨i2, Or.inr h2, hrest⟩
      · rintro (h | ⟨i2, (rfl | h2), v, hv, hrest⟩)
        · exact Or.inl h
        · rw [hi] at hv; cases hv
        · exact Or.inr ⟨i2, h2, v, hv, hrest⟩
    | some v0 =>
      cases hs : sel v0 with
      | false =>
        have heq : (collectStep lookup sel transform getSource kindLabel reason
            allowMissing st i).active = st.active := by
          simp [collectStep, hi, hs]
        rw [heq]
        simp only [List.mem_cons]
        constructor
        · rintro (h | ⟨i2, h2, hrest⟩)
          · exact Or.inl h
          · exact Or.inr ⟨i2, Or.inr h2, hrest⟩
        · rintro (h | ⟨i2, (rfl | h2), v, hv, hsv, hd⟩)
          · exact Or.inl h
          · rw [hi] at hv; cases hv; rw [hs] at hsv; cases hsv
          · exact Or.inr ⟨i2, h2, v, hv, hsv, hd⟩
      | true =>
        rw [hstep v0 hi hs]
        simp only [List.mem_cons, List.mem_append, List.mem_singleton,
          List.not_mem_nil, or_false]
        constructor
        · rintro ((h | rfl) | ⟨i2, h2, hrest⟩)
          · exact Or.inl h
          · exact Or.inr ⟨i, Or.inl rfl, v0, hi, hs, rfl⟩
          · exact Or.inr ⟨i2, Or.inr h2, hrest⟩
        · rintro (h | ⟨i2, (rfl | h2), v, hv, hsv, hd⟩)
          · exact Or.inl (Or.inl h)
          · rw [hi] at hv; cases hv; exact Or.inl (Or.inr hd)
          · exact Or.inr ⟨i2, h2, v, hv, hsv, hd⟩

theorem collect_errors_fold {α : Type} (lookup : String → Option α) (sel : α → Bool)
    (transform : α → α) (getSource : α → Option SourceInfo) (kindLabel reason : String)
    (allowMissing : Bool) (ids : List String) (st : Collect α) (e : String) :
    e ∈ (ids.foldl
        (collectStep lookup sel transform getSource kindLabel reason allowMissing)
        st).errors ↔
      e ∈ st.errors ∨
        (allowMissing = false ∧ ∃ id ∈ ids, lookup id = none ∧ e = notFoundMsg kindLabel id) := by
  induction ids generalizing st with
  | nil => simp
  | cons i ids ih =>
    show e ∈ (ids.foldl _ (collectStep lookup sel transform getSource
      kindLabel reason allowMissing st i)).errors ↔ _
    rw [ih]
    cases hi : lookup i with
    | some v0 =>
      have heq : (collectStep lookup sel transform getSource kindLabel reason
          allowMissing st i).errors = st.errors := by
        cases hs : sel v0 <;> simp [collectStep, hi, hs]
      rw [heq]
      simp only [List.mem_cons]
      constructor
      · rintro (h | ⟨ham, i2, h2, hrest⟩)
        · exact Or.inl h
        · exact Or.inr ⟨ham, i2, Or.inr h2, hrest⟩
      · rintro (h | ⟨ham, i2, (rfl | h2), hv, hrest⟩)
        · exact Or.inl h
        · rw [hi] at hv; cases hv
        · exact Or.inr ⟨ham, i2, h2, hv, hrest⟩
    | none =>
      cases allowMissing with
      | true =>
        have heq : (collectStep lookup sel transform getSource kindLabel reason
            true st i).errors = st.errors := by
          simp [collectStep, hi]
        rw [heq]
        simp only [List.mem_cons]
        constructor
        · rintro (h | ⟨ham, hrest⟩)
          · exact Or.inl h
          · cases ham
        · rintro (h | ⟨ham, hrest⟩)
          · exact Or.inl h
          · cases ham
      | false =>
        have heq : (collectStep lookup sel transform getSource kindLabel reason
            false st i).errors = st.errors ++ [notFoundMsg kindLabel i] := by
          simp [collectStep, hi]
        rw [heq]
        simp only [List.mem_cons, List.mem_append, List.mem_singleton,
          List.not_mem_nil, or_false]
        constructor
        · rintro ((h | rfl) | ⟨ham, i2, h2, hrest⟩)
          · exact Or.inl h
          · exact Or.inr ⟨by trivial, i, Or.inl rfl, hi, rfl⟩
          · exact Or.inr ⟨ham, i2, Or.inr h2, hrest⟩
        · rintro (h | ⟨ham, i2, (rfl | h2), hv, he⟩)
          · exact Or.inl (Or.inl h)
          · exact Or.inl (Or.inr he)
          · exact Or.inr ⟨ham, i2, h2, hv, he⟩

theorem collect_warnings_fold {α : Type} (lookup : String → Option α) (sel : α → Bool)
    (transform : α → α) (getSource : α → Option SourceInfo) (kindLabel reason : String)
    (allowMissing : Bool) (ids : List String) (st : Collect α) (w : String) :
    w ∈ (ids.foldl
        (collectStep lookup sel transform getSource kindLabel reason allowMissing)
        st).warnings ↔
      w ∈ st.warnings ∨
        ∃ id ∈ ids, ∃ v, lookup id = some v ∧ sel v = false ∧ w = selSkipMsg kindLabel id := by
  induction ids generalizing st with
  | nil => simp
  | cons i ids ih =>
    show w ∈ (ids.foldl _ (collectStep lookup sel transform getSource
      kindLabel reason allowMissing st i)).warnings ↔ _
    rw [ih]
    cases hi : lookup i with
    | none =>
      have heq : (collectStep lookup sel transform getSource kindLabel reason
          allowMissing st i).warnings = st.warnings := by
        cases allowMissing <;> simp [collectStep, hi]
      rw [heq]
      simp only [List.mem_cons]
      constructor
      · rintro (h | ⟨i2, h2, hrest⟩)
        · exact Or.inl h
        · exact Or.inr ⟨i2, Or.inr h2, hrest⟩
      · rintro (h | ⟨i2, (rfl | h2), v, hv, hrest⟩)
        · exact Or.inl h
        · rw [hi] at hv; cases hv
        · exact Or.inr ⟨i2, h2, v, hv, hrest⟩
    | some v0 =>
      cases hs : sel v0 with
      | true =>
        have heq : (collectStep lookup sel transform getSource kindLabel reason
            allowMissing st i).warnings = st.warnings := by
          simp [collectStep, hi, hs]
        rw [heq]
        simp only [List.mem_cons]
        constructor
        · rintro (h | ⟨i2, h2, hrest⟩)
          · exact Or.inl h
          · exact Or.inr ⟨i2, Or.inr h2, hrest⟩
        · rintro (h | ⟨i2, (rfl | h2), v, hv, hsv, hw⟩)
          · exact Or.inl h
          · rw [hi] at hv; cases hv; rw [hs] at hsv; cases hsv
          · exact Or.inr ⟨i2, h2, v, hv, hsv, hw⟩
      | false =>
        have heq : (collectStep lookup sel transform getSource kindLabel reason
            allowMissing st i).warnings = st.warnings ++ [selSkipMsg kindLabel i] := by
          simp [collectStep, hi, hs]
        rw [heq]
        simp only [List.mem_cons, List.mem_append, List.mem_singleton,
          List.not_mem_nil, or_false]
        constructor
        · rintro ((h | rfl) | ⟨i2, h2, hrest⟩)
          · exact Or.inl h
          · exact Or.inr ⟨i, Or.inl rfl, v0, hi, hs, rfl⟩
          · exact Or.inr ⟨i2, Or.inr h2, hrest⟩
        · rintro (h | ⟨i2, (rfl | h2), v, hv, hsv, hw⟩)
          · exact Or.inl (Or.inl h)
          · exact Or.inl (Or.inr hw)
          · exact Or.inr ⟨i2, h2, v, hv, hsv, hw⟩

/-! Projection equations of `resolveFromRegistry`, all definitional. -/

theorem resolve_rules_def (reg : Registry) (cfg : RootConfig) (inp : ResolveInput)
    (now : String) :
    (resolveFromRegistry reg cfg inp now).rules =
      (collectAll (mapGet reg.rules)
        (fun r => selectorsMatch r.selectors inp.model inp.context)
        (fun r => r) (fun r => r.source) "Rule"
        "explicitly enabled or via dependency" (resolveAllowMissing cfg)
        (resolveClosed reg cfg inp).rules).active := rfl

theorem resolve_agents_def (reg : Registry) (cfg : RootConfig) (inp : ResolveInput)
    (now : String) :
    (resolveFromRegistry reg cfg inp now).agents =
      (collectAll (mapGet reg.agents)
        (fun a => selectorsMatch a.selectors inp.model inp.context)
        (fun a => applyInstructionVariants a inp.model) (fun a => a.source) "Agent"
        "explicitly enabled" (resolveAllowMissing cfg)
        (resolveEnabledAgents reg cfg inp)).active := rfl

theorem resolve_skills_def (reg : Registry) (cfg : RootConfig) (inp : ResolveInput)
    (now : String) :
    (resolveFromRegistry reg cfg inp now).skills =
      (collectAll (mapGet reg.skills)
        (fun s => selectorsMatch s.selectors inp.model inp.context)
        (fun s => s) (fun s => s.source) "Skill"
        "explicitly enabled or via agent dependency" (resolveAllowMissing cfg)
        (resolveClosed reg cfg inp).skills).active := rfl

theorem resolve_mcp_def (reg : Registry) (cfg : RootConfig) (inp : ResolveInput)
    (now : String) :
    (resolveFromRegistry reg cfg inp now).mcpServers =
      (collectAll (mapGet reg.mcpServers)
        (fun s => selectorsMatch s.selectors inp.model inp.context)
        (fun s => s) (fun s => s.source) "MCP server"
        "explicitly enabled or via skill dependency" (resolveAllowMissing cfg)
        (resolveClosed reg cfg inp).mcpServers).active := rfl

theorem resolve_errors_def (reg : Registry) (cfg : RootConfig) (inp : ResolveInput)
    (now : String) :
    (resolveFromRegistry reg cfg inp now).trace.errors =
      (collectAll (mapGet reg.rules)
        (fun r => selectorsMatch r.selectors inp.model inp.context)
        (fun r => r) (fun r => r.source) "Rule"
        "explicitly enabled or via dependency" (resolveAllowMissing cfg)
        (resolveClosed reg cfg inp).rules).errors ++
      (collectAll (mapGet reg.agents)
        (fun a => selectorsMatch a.selectors inp.model inp.context)
        (fun a => applyInstructionVariants a inp.model) (fun a => a.source) "Agent"
        "explicitly enabled" (resolveAllowMissing cfg)
        (resolveEnabledAgents reg cfg inp)).errors ++
      (collectAll (mapGet reg.skills)
        (fun s => selectorsMatch s.selectors inp.model inp.context)
        (fun s => s) (fun s => s.source) "Skill"
        "explicitly enabled or via agent dependency" (resolveAllowMissing cfg)
        (resolveClosed reg cfg inp).skills).errors ++
      (collectAll (mapGet reg.mcpServers)
        (fun s => selectorsMatch s.selectors inp.model inp.context)
        (fun s => s) (fun s => s.source) "MCP server"
        "explicitly enabled or via skill dependency" (resolveAllowMissing cfg)
        (resolveClosed reg cfg inp).mcpServers).errors := rfl

theorem resolve_warnings_def (reg : Registry) (cfg : RootConfig) (inp : ResolveInput)
    (now : String) :
    (resolveFromRegistry reg cfg inp now).trace.warnings =
      (mergeLayers reg cfg inp).warnings ++
      (collectAll (mapGet reg.rules)
        (fun r => selectorsMatch r.selectors inp.model inp.context)
        (fun r => r) (fun r => r.source) "Rule"
        "explicitly enabled or via dependency" (resolveAllowMissing cfg)
        (resolveClosed reg cfg inp).rules).warnings ++
      (collectAll (mapGet reg.agents)
        (fun a => selectorsMatch a.selectors inp.model inp.context)
        (fun a => applyInstructionVariants a inp.model) (fun a => a.source) "Agent"
        "explicitly enabled" (resolveAllowMissing cfg)
        (resolveEnabledAgents reg cfg inp)).warnings ++
      (collectAll (mapGet reg.skills)
        (fun s => selectorsMatch s.selectors inp.model inp.context)
        (fun s => s) (fun s => s.source) "Skill"
        "explicitly enabled or via agent dependency" (resolveAllowMissing cfg)
        (resolveClosed reg cfg inp).skills).warnings ++
      (collectAll (mapGet reg.mcpServers)
        (fun s => selectorsMatch s.selectors inp.model inp.context)
        (fun s => s) (fun s => s.source) "MCP server"
        "explicitly enabled or via skill dependency" (resolveAllowMissing cfg)
        (resolveClosed reg cfg inp).mcpServers).warnings := rfl

theorem resolve_configHash_def (reg : Registry) (cfg : RootConfig) (inp : ResolveInput)
    (now : String) :
    (resolveFromRegistry reg cfg inp now).meta.configHash =
      simpleHash (configDataJson
        ((resolveFromRegistry reg cfg inp now).rules.map (fun r => r.id))
        ((resolveFromRegistry reg cfg inp now).agents.map (fun a => a.id))
        ((resolveFromRegistry reg cfg inp now).skills.map (fun s => s.id))
        ((resolveFromRegistry reg cfg inp now).mcpServers.map (fun s => s.id))
        inp.model inp.context) := rfl

/-! Facts about the closed-enabled sets. -/

theorem applyInstructionVariants_id (agent : AgentDefinition) (model : Option String) :
    (applyInstructionVariants agent model).id = agent.id := by
  unfold applyInstructionVariants
  split <;> rfl

theorem closeDeps_skills (registry : Registry) (dR dS dM : List String)
    (enAgents : List String) (st0 : CloseState) :
    (closeDeps registry dR dS dM enAgents st0).skills =
      (enAgents.foldl (closeAgentsStep registry dR dS dM) st0).skills := rfl

theorem closeDeps_rules (registry : Registry) (dR dS dM : List String)
    (enAgents : List String) (st0 : CloseState) :
    (closeDeps registry dR dS dM enAgents st0).rules =
      (enAgents.foldl (closeAgentsStep registry dR dS dM) st0).rules := rfl

theorem closeDeps_mcp (registry : Registry) (dR dS dM : List String)
    (enAgents : List String) (st0 : CloseState) :
    (closeDeps registry dR dS dM enAgents st0).mcpServers =
      ((enAgents.foldl (closeAgentsStep registry dR dS dM) st0).skills).foldl
        (closeSkillsStep registry dM)
        ((enAgents.foldl (closeAgentsStep registry dR dS dM) st0).mcpServers) := rfl

theorem mem_enabledAgents_iff (reg : Registry) (cfg : RootConfig) (inp : ResolveInput)
    (a : String) :
    a ∈ resolveEnabledAgents reg cfg inp ↔
      a ∈ (mergeLayers reg cfg inp).enabled.agents ∧
        a ∉ (mergeLayers reg cfg inp).disabled.agents := by
  rw [resolveEnabledAgents]
  exact mem_minusSet

theorem closed_rules_not_disabled (reg : Registry) (cfg : RootConfig)
    (inp : ResolveInput) (a : String)
    (ha : a ∈ (resolveClosed reg cfg inp).rules) :
    a ∉ (mergeLayers reg cfg inp).disabled.rules := by
  rw [resolveClosed, closeDeps_rules, mem_agentsFold_rules] at ha
  rcases ha with h | ⟨_, _, _, _, _, hd⟩
  · exact (mem_minusSet.mp h).2
  · exact fun hx => hd (mem_setFromList.mpr hx)

theorem closed_skills_not_disabled (reg : Registry) (cfg : RootConfig)
    (inp : ResolveInput) (a : String)
    (ha : a ∈ (resolveClosed reg cfg inp).skills) :
    a ∉ (mergeLayers reg cfg inp).disabled.skills := by
  rw [resolveClosed, closeDeps_skills, mem_agentsFold_skills] at ha
  rcases ha with h | ⟨_, _, _, _, _, hd⟩
  · exact (mem_minusSet.mp h).2
  · exact fun hx => hd (mem_setFromList.mpr hx)

theorem closed_mcp_not_disabled (reg : Registry) (cfg : RootConfig)
    (inp : ResolveInput) (a : String)
    (ha : a ∈ (resolveClosed reg cfg inp).mcpServers) :
    a ∉ (mergeLayers reg cfg inp).disabled.mcpServers := by
  rw [resolveClosed, closeDeps_mcp, mem_skillsFold_mcp] at ha
  rcases ha with ha | ⟨_, _, _, _, _, hd⟩
  · rw [mem_agentsFold_mcp] at ha
    rcases ha with h | ⟨_, _, _, _, _, hd⟩
    · exact (mem_minusSet.mp h).2
    · exact fun hx => hd (mem_setFromList.mpr hx)
  · exact fun hx => hd (mem_setFromList.mpr hx)

theorem closed_skills_of_agent (reg : Registry) (cfg : RootConfig) (inp : ResolveInput)
    (A S : String) (ag : AgentDefinition)
    (hA : A ∈ resolveEnabledAgents reg cfg inp)
    (hag : mapGet reg.agents A = some ag)
    (hS : S ∈ ag.skills.getD [])
    (hSd : S ∉ (mergeLayers reg cfg inp).disabled.skills) :
    S ∈ (resolveClosed reg cfg inp).skills := by
  rw [resolveClosed, closeDeps_skills, mem_agentsFold_skills]
  exact Or.inr ⟨A, hA, ag, hag, hS, fun hx => hSd (mem_setFromList.mp hx)⟩

theorem closed_mcp_of_skill (reg : Registry) (cfg : RootConfig) (inp : ResolveInput)
    (S M : String) (sk : SkillDefinition)
    (hS : S ∈ (resolveClosed reg cfg inp).skills)
    (hsk : mapGet reg.skills S = some sk)
    (hM : M ∈ sk.requiresMcpServers.getD [])
    (hMd : M ∉ (mergeLayers reg cfg inp).disabled.mcpServers) :
    M ∈ (resolveClosed reg cfg inp).mcpServers := by
  rw [resolveClosed, closeDeps_mcp, mem_skillsFold_mcp]
  rw [resolveClosed, closeDeps_skills] at hS
  exact Or.inr ⟨S, hS, sk, hsk, hM, fun hx => hMd (mem_setFromList.mp hx)⟩

/-! Registry lookups against well-formed registries. -/

theorem mapGet_cons {α : Type} (kv : String × α) (rest : List (String × α)) (k : String) :
    mapGet (kv :: rest) k = if kv.1 == k then some kv.2 else mapGet rest k := by
  unfold mapGet
  cases hb : (kv.1 == k) <;> simp [List.find?, hb]

theorem mapGet_eq_some_mem {α : Type} (m : List (String × α)) (k : String) (v : α)
    (h : mapGet m k = some v) : ∃ p ∈ m, p.1 = k ∧ p.2 = v := by
  induction m with
  | nil => simp [mapGet, List.find?] at h
  | cons kv rest ih =>
    rw [mapGet_cons] at h
    cases hb : (kv.1 == k) with
    | true =>
      rw [if_pos hb] at h
      cases h
      exact ⟨kv, List.mem_cons_self kv rest, by simpa using hb, rfl⟩
    | false =>
      rw [if_neg (by simp [hb])] at h
      obtain ⟨p, hp, h1, h2⟩ := ih h
      exact ⟨p, List.mem_cons_of_mem kv hp, h1, h2⟩

theorem rule_id_of_mapGet {reg : Registry} {k : String} {v : RuleDefinition}
    (hWF : registryWF reg) (h : mapGet reg.rules k = some v) : v.id = k := by
  obtain ⟨p, hp, h1, h2⟩ := mapGet_eq_some_mem _ _ _ h
  rw [← h2, hWF.1 p hp, h1]

theorem agent_id_of_mapGet {reg : Registry} {k : String} {v : AgentDefinition}
    (hWF : registryWF reg) (h : mapGet reg.agents k = some v) : v.id = k := by
  obtain ⟨p, hp, h1, h2⟩ := mapGet_eq_some_mem _ _ _ h
  rw [← h2, hWF.2.1 p hp, h1]

theorem skill_id_of_mapGet {reg : Registry} {k : String} {v : SkillDefinition}
    (hWF : registryWF reg) (h : mapGet reg.skills k = some v) : v.id = k := by
  obtain ⟨p, hp, h1, h2⟩ := mapGet_eq_some_mem _ _ _ h
  rw [← h2, hWF.2.2.1 p hp, h1]

theorem mcp_id_of_mapGet {reg : Registry} {k : String} {v : McpServerDefinition}
    (hWF : registryWF reg) (h : mapGet reg.mcpServers k = some v) : v.id = k := by
  obtain ⟨p, hp, h1, h2⟩ := mapGet_eq_some_mem _ _ _ h
  rw [← h2, hWF.2.2.2 p hp, h1]

/-! Membership in the active lists. -/

theorem mem_active_rules (reg : Registry) (cfg : RootConfig) (inp : ResolveInput)
    (now : String) (d : RuleDefinition) :
    d ∈ (resolveFromRegistry reg cfg inp now).rules ↔
      ∃ id ∈ (resolveClosed reg cfg inp).rules,
        mapGet reg.rules id = some d ∧
          selectorsMatch d.selectors inp.model inp.context = true := by
  rw [resolve_rules_def]
  unfold collectAll
  rw [collect_active_fold]
  simp only [collectInit, List.not_mem_nil, false_or]
  constructor
  · rintro ⟨id, hid, v, hv, hs, rfl⟩
    exact ⟨id, hid, hv, hs⟩
  · rintro ⟨id, hid, hv, hs⟩
    exact ⟨id, hid, d, hv, hs, rfl⟩

theorem mem_active_agents (reg : Registry) (cfg : RootConfig) (inp : ResolveInput)
    (now : String) (d : AgentDefinition) :
    d ∈ (resolveFromRegistry reg cfg inp now).agents ↔
      ∃ id ∈ resolveEnabledAgents reg cfg inp, ∃ v,
        mapGet reg.agents id = some v ∧
          selectorsMatch v.selectors inp.model inp.context = true ∧
          d = applyInstructionVariants v inp.model := by
  rw [resolve_agents_def]
  unfold collectAll
  rw [collect_active_fold]
  simp only [collectInit, List.not_mem_nil, false_or]

theorem mem_active_skills (reg : Registry) (cfg : RootConfig) (inp : ResolveInput)
    (now : String) (d : SkillDefinition) :
    d ∈ (resolveFromRegistry reg cfg inp now).skills ↔
      ∃ id ∈ (resolveClosed reg cfg inp).skills,
        mapGet reg.skills id = some d ∧
          selectorsMatch d.selectors inp.model inp.context = true := by
  rw [resolve_skills_def]
  unfold collectAll
  rw [collect_active_fold]
  simp only [collectInit, List.not_mem_nil, false_or]
  constructor
  · rintro ⟨id, hid, v, hv, hs, rfl⟩
    exact ⟨id, hid, hv, hs⟩
  · rintro ⟨id, hid, hv, hs⟩
    exact ⟨id, hid, d, hv, hs, rfl⟩

theorem mem_active_mcp (reg : Registry) (cfg : RootConfig) (inp : ResolveInput)
    (now : String) (d : McpServerDefinition) :
    d ∈ (resolveFromRegistry reg cfg inp now).mcpServers ↔
      ∃ id ∈ (resolveClosed reg cfg inp).mcpServers,
        mapGet reg.mcpServers id = some d ∧
          selectorsMatch d.selectors inp.model inp.context = true := by
  rw [resolve_mcp_def]
  unfold collectAll
  rw [collect_active_fold]
  simp only [collectInit, List.not_mem_nil, false_or]
  constructor
  · rintro ⟨id, hid, v, hv, hs, rfl⟩
    exact ⟨id, hid, hv, hs⟩
  · rintro ⟨id, hid, hv, hs⟩
    exact ⟨id, hid, d, hv, hs, rfl⟩

/-- Helper: a guarded boolean any-check folded into implication form. -/
theorem if_any_eq_true (c : Bool) (l : List String) (f : String → Bool) :
    (if c then l.any f else true) = true ↔ (c = true → ∃ p ∈ l, f p = true) := by
  cases c <;> simp [List.any_eq_true]

/-- Helper: a guarded membership check folded into implication form. -/
theorem if_contains_eq_true (c : Bool) (l : List String) (x : String) :
    (if c then l.contains x else true) = true ↔ (c = true → x ∈ l) := by
  cases c <;> simp

/-! ## Claim theorems -/

/-- C4: resolution is deterministic — two calls of `resolveFromRegistry`
with identical registry, root config and input yield the same configHash
and the same four active entity lists, whatever the per-call timestamps
are; the hash never depends on the clock. -/
theorem resolve_deterministic (reg : Registry) (cfg : RootConfig) (inp : ResolveInput)
    (now1 now2 : String) :
    (resolveFromRegistry reg cfg inp now1).meta.configHash =
        (resolveFromRegistry reg cfg inp now2).meta.configHash ∧
      (resolveFromRegistry reg cfg inp now1).rules =
        (resolveFromRegistry reg cfg inp now2).rules ∧
      (resolveFromRegistry reg cfg inp now1).agents =
        (resolveFromRegistry reg cfg inp now2).agents ∧
      (resolveFromRegistry reg cfg inp now1).skills =
        (resolveFromRegistry reg cfg inp now2).skills ∧
      (resolveFromRegistry reg cfg inp now1).mcpServers =
        (resolveFromRegistry reg cfg inp now2).mcpServers :=
  ⟨rfl, rfl, rfl, rfl, rfl⟩

/-- C6: instruction-variant application — no model or no variant list
leaves the agent unchanged; otherwise the variants are folded in declared
order over the base instructions; a matching variant with a non-empty
`replace` makes the accumulator exactly that string, ignoring its sibling
prepend/append; a matching non-replace variant joins its truthy prepend
before and its truthy append after the accumulator with blank-line
separators, both on one variant compounding earlier edits; in particular
base "X" with variant `when.model = "m", replace = "Y"` resolved at model
"m" yields exactly "Y". -/
theorem applyInstructionVariants_spec :
    (∀ agent : AgentDefinition, applyInstructionVariants agent none = agent) ∧
    (∀ (agent : AgentDefinition) (model : Option String), agent.variants = none →
      applyInstructionVariants agent model = agent) ∧
    (∀ (agent : AgentDefinition) (m : String) (vs : List InstructionVariant),
      agent.variants = some vs → m ≠ "" →
      (applyInstructionVariants agent (some m)).instructions =
        some (vs.foldl (fun acc v => variantStep m acc v) (agent.instructions.getD ""))) ∧
    (∀ (m acc : String) (v : InstructionVariant) (r : String),
      variantMatches m v = true → v.replace = some r → r ≠ "" →
      variantStep m acc v = r) ∧
    (∀ (m acc : String) (v : InstructionVariant) (p a : String),
      variantMatches m v = true → truthyStr v.replace = false →
      v.prepend = some p → p ≠ "" → v.append = some a → a ≠ "" →
      variantStep m acc v = p ++ "\n\n" ++ acc ++ "\n\n" ++ a) ∧
    ((applyInstructionVariants
        (mkAgent "agent:x" (some "X")
          (some [{ when := { model := some "m", modelFamily := none }
                   append := none, prepend := none, replace := some "Y" }]) [])
        (some "m")).instructions = some "Y") := by
  refine ⟨?_, ?_, ?_, ?_, ?_, ?_⟩
  · intro agent
    simp [applyInstructionVariants, truthyStr]
  · intro agent model hv
    simp [applyInstructionVariants, hv]
  · intro agent m vs hv hm
    simp [applyInstructionVariants, hv, truthyStr, hm]
  · intro m acc v r hmatch hr hne
    simp [variantStep, hmatch, hr, truthyStr, hne]
  · intro m acc v p a hmatch hrep hp hpne ha hane
    unfold variantStep
    rw [if_pos hmatch, if_neg (by simp [hrep])]
    simp [hp, ha, truthyStr, hpne, hane]
  · decide

/-- C6 witness: the hypotheses of the universally quantified conjuncts
hold at concrete inputs and the theorem instantiates there. -/
theorem applyInstructionVariants_spec_witness :
    ((mkAgent "agent:x" (some "X") none []).variants = none ∧
      applyInstructionVariants (mkAgent "agent:x" (some "X") none []) (some "m") =
        mkAgent "agent:x" (some "X") none []) ∧
    (variantMatches "m"
        { when := { model := some "m", modelFamily := none }
          append := some "A", prepend := some "P", replace := some "R" } = true ∧
      variantStep "m" "X"
        { when := { model := some "m", modelFamily := none }
          append := some "A", prepend := some "P", replace := some "R" } = "R") ∧
    (variantStep "m" "X"
        { when := { model := some "m", modelFamily := none }
          append := some "A", prepend := some "P", replace := none } =
      "P" ++ "\n\n" ++ "X" ++ "\n\n" ++ "A") :=
  ⟨⟨rfl, applyInstructionVariants_spec.2.1 _ (some "m") rfl⟩,
    ⟨by decide,
      applyInstructionVariants_spec.2.2.2.1 "m" "X" _ "R" (by decide) rfl (by decide)⟩,
    applyInstructionVariants_spec.2.2.2.2.1 "m" "X" _ "P" "A" (by decide) (by decide)
      rfl (by decide) rfl (by decide)⟩

/-- C10: a matching variant whose `replace` is the empty string is not a
replacement — the falsy `""` sends execution to the prepend/append
branch — and full replacement happens exactly when `replace` is a
non-empty string. -/
theorem variantStep_empty_replace :
    (∀ (m acc : String) (v : InstructionVariant), variantMatches m v = true →
      v.replace = some "" →
      variantStep m acc v =
        (if truthyStr v.append then
          (if truthyStr v.prepend then v.prepend.getD "" ++ "\n\n" ++ acc else acc)
            ++ "\n\n" ++ v.append.getD ""
         else
          (if truthyStr v.prepend then v.prepend.getD "" ++ "\n\n" ++ acc else acc))) ∧
    (∀ (m acc : String) (v : InstructionVariant) (r : String), variantMatches m v = true →
      v.replace = some r → r ≠ "" → variantStep m acc v = r) := by
  constructor
  · intro m acc v hmatch hrep
    simp [variantStep, hmatch, hrep, truthyStr]
  · intro m acc v r hmatch hrep hne
    simp [variantStep, hmatch, hrep, truthyStr, hne]

/-- C10 witness: a concrete matching variant with empty `replace` and
both prepend and append set applies both instead of replacing. -/
theorem variantStep_empty_replace_witness :
    variantMatches "m"
        { when := { model := some "m", modelFamily := none }
          append := some "A", prepend := some "P", replace := some "" } = true ∧
    variantStep "m" "X"
        { when := { model := some "m", modelFamily := none }
          append := some "A", prepend := some "P", replace := some "" } =
      "P" ++ "\n\n" ++ "X" ++ "\n\n" ++ "A" :=
  ⟨by decide, by
    rw [variantStep_empty_replace.1 "m" "X" _ (by decide) rfl]
    decide⟩

/-- C5 counterexample: `matchPattern` does not escape `?`, so the pattern
`"a?"` — which under the claimed semantics (only `*` is a wildcard, every
other regex metacharacter escaped) matches only the literal string `"a?"`
— acts as a regex optional and matches `"a"`.  `selectorsMatch` with
`models = ["a?"]` therefore accepts model `"a"` although no pattern
spec-glob-matches it. -/
theorem selectorsMatch_escape_counterexample :
    selectorsMatch (some { models := some ["a?"], contexts := none }) (some "a") none
        = true ∧
      specGlobMatch "a?" "a" = false ∧
      matchPattern "a?" "a" = true ∧
      matchPattern "a?" "a?" = false := by
  refine ⟨by decide, by decide, by decide, by decide⟩

/-- C5 amended: `selectorsMatch` is true when selectors are absent; with
selectors present it is true iff (when the models list is
present-and-non-empty and a truthy model is supplied) some pattern
`matchPattern`-matches the model — where `*` is a wildcard, the
metacharacters `. + ^ $ ( ) | [ ] \x7b \x7d \` are escaped, but `?` is
passed through as a regex optional quantifier — and (when the contexts
list is present-and-non-empty and a truthy context is supplied) the
context is an exact member of the list; a constraint whose input side is
missing passes. -/
theorem selectorsMatch_spec :
    (∀ (model context : Option String), selectorsMatch none model context = true) ∧
    (∀ (sel : Selectors) (model context : Option String),
      selectorsMatch (some sel) model context = true ↔
        ((sel.models.isSome ∧ edsL sel.models ≠ [] ∧ truthyStr model = true) →
          ∃ p ∈ edsL sel.models, matchPattern p (model.getD "") = true) ∧
        ((sel.contexts.isSome ∧ edsL sel.contexts ≠ [] ∧ truthyStr context = true) →
          context.getD "" ∈ edsL sel.contexts)) := by
  constructor
  · intro model context
    rfl
  · intro sel model context
    show (_ && _) = true ↔ _
    rw [Bool.and_eq_true, if_any_eq_true, if_contains_eq_true]
    constructor
    · rintro ⟨h1, h2⟩
      constructor
      · rintro ⟨ha, hb, hcm⟩
        apply h1
        simp only [Bool.and_eq_true, decide_eq_true_eq]
        exact ⟨⟨ha, List.length_pos.mpr hb⟩, hcm⟩
      · rintro ⟨ha, hb, hcm⟩
        apply h2
        simp only [Bool.and_eq_true, decide_eq_true_eq]
        exact ⟨⟨ha, List.length_pos.mpr hb⟩, hcm⟩
    · rintro ⟨h1, h2⟩
      constructor
      · intro hc
        simp only [Bool.and_eq_true, decide_eq_true_eq] at hc
        exact h1 ⟨hc.1.1, List.length_pos.mp hc.1.2, hc.2⟩
      · intro hc
        simp only [Bool.and_eq_true, decide_eq_true_eq] at hc
        exact h2 ⟨hc.1.1, List.length_pos.mp hc.1.2, hc.2⟩

/-- C5 amended witness: the characterisation instantiated at a selector
gating on `anthropic:*` with a matching model supplied. -/
theorem selectorsMatch_spec_witness :
    selectorsMatch (some { models := some ["anthropic:*"], contexts := none })
      (some "anthropic:claude-3") none = true :=
  (selectorsMatch_spec.2 { models := some ["anthropic:*"], contexts := none }
      (some "anthropic:claude-3") none).mpr
    ⟨fun _ => ⟨"anthropic:*", by decide, by decide⟩, fun h => absurd h.1 (by decide)⟩

/-- Helper: evaluate `simpleHash` over a split of the code-unit list, so
that each half stays within the kernel's reduction budget. -/
theorem simpleHash_chunk (s : String) (l1 l2 : List Nat) (v1 : Int)
    (hsplit : strCodeUnits s = l1 ++ l2) (h1 : l1.foldl hashStep 0 = v1) :
    simpleHash s = padStart8 (hexString ((l2.foldl hashStep v1).natAbs)) := by
  unfold simpleHash
  rw [hsplit, List.foldl_append, h1]

set_option maxRecDepth 4000 in
/-- C1 counterexample: two resolutions over the same registry whose final
active id sets are equal as sets (the lists are permutations), with equal
model and context, but whose config hashes differ — the hash is computed
over the id lists in resolution order, not over sorted id sets. -/
theorem configHash_order_counterexample :
    ((resolveFromRegistry regTwoRules
        (cfgOf (edsOf ["rule:a", "rule:b"] [] [] []) (edsOf [] [] [] []))
        inpPlain "t").rules.map (fun r => r.id)).Perm
      ((resolveFromRegistry regTwoRules
        (cfgOf (edsOf ["rule:b", "rule:a"] [] [] []) (edsOf [] [] [] []))
        inpPlain "t").rules.map (fun r => r.id)) ∧
    (resolveFromRegistry regTwoRules
        (cfgOf (edsOf ["rule:a", "rule:b"] [] [] []) (edsOf [] [] [] []))
        inpPlain "t").agents = [] ∧
    (resolveFromRegistry regTwoRules
        (cfgOf (edsOf ["rule:b", "rule:a"] [] [] []) (edsOf [] [] [] []))
        inpPlain "t").agents = [] ∧
    (resolveFromRegistry regTwoRules
        (cfgOf (edsOf ["rule:a", "rule:b"] [] [] []) (edsOf [] [] [] []))
        inpPlain "t").skills = [] ∧
    (resolveFromRegistry regTwoRules
        (cfgOf (edsOf ["rule:b", "rule:a"] [] [] []) (edsOf [] [] [] []))
        inpPlain "t").skills = [] ∧
    (resolveFromRegistry regTwoRules
        (cfgOf (edsOf ["rule:a", "rule:b"] [] [] []) (edsOf [] [] [] []))
        inpPlain "t").mcpServers = [] ∧
    (resolveFromRegistry regTwoRules
        (cfgOf (edsOf ["rule:b", "rule:a"] [] [] []) (edsOf [] [] [] []))
        inpPlain "t").mcpServers = [] ∧
    (resolveFromRegistry regTwoRules
        (cfgOf (edsOf ["rule:a", "rule:b"] [] [] []) (edsOf [] [] [] []))
        inpPlain "t").meta.model =
      (resolveFromRegistry regTwoRules
        (cfgOf (edsOf ["rule:b", "rule:a"] [] [] []) (edsOf [] [] [] []))
        inpPlain "t").meta.model ∧
    (resolveFromRegistry regTwoRules
        (cfgOf (edsOf ["rule:a", "rule:b"] [] [] []) (edsOf [] [] [] []))
        inpPlain "t").meta.context =
      (resolveFromRegistry regTwoRules
        (cfgOf (edsOf ["rule:b", "rule:a"] [] [] []) (edsOf [] [] [] []))
        inpPlain "t").meta.context ∧
    (resolveFromRegistry regTwoRules
        (cfgOf (edsOf ["rule:a", "rule:b"] [] [] []) (edsOf [] [] [] []))
        inpPlain "t").meta.configHash ≠
      (resolveFromRegistry regTwoRules
        (cfgOf (edsOf ["rule:b", "rule:a"] [] [] []) (edsOf [] [] [] []))
        inpPlain "t").meta.configHash := by
  have mapA : (resolveFromRegistry regTwoRules
      (cfgOf (edsOf ["rule:a", "rule:b"] [] [] []) (edsOf [] [] [] []))
      inpPlain "t").rules.map (fun r => r.id) = ["rule:a", "rule:b"] := by rfl
  have mapB : (resolveFromRegistry regTwoRules
      (cfgOf (edsOf ["rule:b", "rule:a"] [] [] []) (edsOf [] [] [] []))
      inpPlain "t").rules.map (fun r => r.id) = ["rule:b", "rule:a"] := by rfl
  have mapAg : (resolveFromRegistry regTwoRules
      (cfgOf (edsOf ["rule:a", "rule:b"] [] [] []) (edsOf [] [] [] []))
      inpPlain "t").agents.map (fun a => a.id) = [] := by rfl
  have mapAs : (resolveFromRegistry regTwoRules
      (cfgOf (edsOf ["rule:a", "rule:b"] [] [] []) (edsOf [] [] [] []))
      inpPlain "t").skills.map (fun a => a.id) = [] := by rfl
  have mapAm : (resolveFromRegistry regTwoRules
      (cfgOf (edsOf ["rule:a", "rule:b"] [] [] []) (edsOf [] [] [] []))
      inpPlain "t").mcpServers.map (fun a => a.id) = [] := by rfl
  have mapBg : (resolveFromRegistry regTwoRules
      (cfgOf (edsOf ["rule:b", "rule:a"] [] [] []) (edsOf [] [] [] []))
      inpPlain "t").agents.map (fun a => a.id) = [] := by rfl
  have mapBs : (resolveFromRegistry regTwoRules
      (cfgOf (edsOf ["rule:b", "rule:a"] [] [] []) (edsOf [] [] [] []))
      inpPlain "t").skills.map (fun a => a.id) = [] := by rfl
  have mapBm : (resolveFromRegistry regTwoRules
      (cfgOf (edsOf ["rule:b", "rule:a"] [] [] []) (edsOf [] [] [] []))
      inpPlain "t").mcpServers.map (fun a => a.id) = [] := by rfl
  have hmod : inpPlain.model = none := rfl
  have hctx : inpPlain.context = none := rfl
  have hashA : (resolveFromRegistry regTwoRules
      (cfgOf (edsOf ["rule:a", "rule:b"] [] [] []) (edsOf [] [] [] []))
      inpPlain "t").meta.configHash =
      simpleHash (configDataJson ["rule:a", "rule:b"] [] [] [] none none) := by
    rw [resolve_configHash_def, mapA, mapAg, mapAs, mapAm, hmod, hctx]
  have hashB : (resolveFromRegistry regTwoRules
      (cfgOf (edsOf ["rule:b", "rule:a"] [] [] []) (edsOf [] [] [] []))
      inpPlain "t").meta.configHash =
      simpleHash (configDataJson ["rule:b", "rule:a"] [] [] [] none none) := by
    rw [resolve_configHash_def, mapB, mapBg, mapBs, mapBm, hmod, hctx]
  have valA : simpleHash (configDataJson ["rule:a", "rule:b"] [] [] [] none none) =
      "3c3aeb22" := by
    rw [simpleHash_chunk (configDataJson ["rule:a", "rule:b"] [] [] [] none none)
      [123, 34, 114, 117, 108, 101, 115, 34, 58, 91, 34, 114, 117, 108, 101, 58,
        97, 34, 44, 34, 114, 117, 108, 101, 58, 98, 34, 93, 44, 34, 97, 103, 101,
        110, 116]
      [115, 34, 58, 91, 93, 44, 34, 115, 107, 105, 108, 108, 115, 34, 58, 91, 93,
        44, 34, 109, 99, 112, 83, 101, 114, 118, 101, 114, 115, 34, 58, 91, 93, 125]
      (-1071021334) (by rfl) (by rfl)]
    rfl
  have valB : simpleHash (configDataJson ["rule:b", "rule:a"] [] [] [] none none) =
      "06893344" := by
    rw [simpleHash_chunk (configDataJson ["rule:b", "rule:a"] [] [] [] none none)
      [123, 34, 114, 117, 108, 101, 115, 34, 58, 91, 34, 114, 117, 108, 101, 58,
        98, 34, 44, 34, 114, 117, 108, 101, 58, 97, 34, 93, 44, 34, 97, 103, 101,
        110, 116]
      [115, 34, 58, 91, 93, 44, 34, 115, 107, 105, 108, 108, 115, 34, 58, 91, 93,
        44, 34, 109, 99, 112, 83, 101, 114, 118, 101, 114, 115, 34, 58, 91, 93, 125]
      (-1718979700) (by rfl) (by rfl)]
    rfl
  have hmodA : (resolveFromRegistry regTwoRules
      (cfgOf (edsOf ["rule:a", "rule:b"] [] [] []) (edsOf [] [] [] []))
      inpPlain "t").meta.model = none := rfl
  have hmodB : (resolveFromRegistry regTwoRules
      (cfgOf (edsOf ["rule:b", "rule:a"] [] [] []) (edsOf [] [] [] []))
      inpPlain "t").meta.model = none := rfl
  have hctxA : (resolveFromRegistry regTwoRules
      (cfgOf (edsOf ["rule:a", "rule:b"] [] [] []) (edsOf [] [] [] []))
      inpPlain "t").meta.context = none := rfl
  have hctxB : (resolveFromRegistry regTwoRules
      (cfgOf (edsOf ["rule:b", "rule:a"] [] [] []) (edsOf [] [] [] []))
      inpPlain "t").meta.context = none := rfl
  refine ⟨?_, rfl, rfl, rfl, rfl, rfl, rfl, ?_, ?_, ?_⟩
  · rw [mapA, mapB]
    decide
  · rw [hmodA, hmodB]
  · rw [hctxA, hctxB]
  · rw [hashA, hashB, valA, valB]
    decide

/-- C1 amended: the config hash is a pure function of the per-kind active
id lists in their resolution order plus the selected model and context —
independent of the timestamp and of the trace — but not of the order in
which ids were enabled. -/
theorem configHash_pure_of_lists (reg1 reg2 : Registry) (cfg1 cfg2 : RootConfig)
    (inp1 inp2 : ResolveInput) (now1 now2 : String)
    (hr : (resolveFromRegistry reg1 cfg1 inp1 now1).rules.map (fun r => r.id) =
      (resolveFromRegistry reg2 cfg2 inp2 now2).rules.map (fun r => r.id))
    (hag : (resolveFromRegistry reg1 cfg1 inp1 now1).agents.map (fun a => a.id) =
      (resolveFromRegistry reg2 cfg2 inp2 now2).agents.map (fun a => a.id))
    (hs : (resolveFromRegistry reg1 cfg1 inp1 now1).skills.map (fun s => s.id) =
      (resolveFromRegistry reg2 cfg2 inp2 now2).skills.map (fun s => s.id))
    (hm : (resolveFromRegistry reg1 cfg1 inp1 now1).mcpServers.map (fun s => s.id) =
      (resolveFromRegistry reg2 cfg2 inp2 now2).mcpServers.map (fun s => s.id))
    (hmod : inp1.model = inp2.model) (hctx : inp1.context = inp2.context) :
    (resolveFromRegistry reg1 cfg1 inp1 now1).meta.configHash =
      (resolveFromRegistry reg2 cfg2 inp2 now2).meta.configHash := by
  rw [resolve_configHash_def, resolve_configHash_def, hr, hag, hs, hm, hmod, hctx]

/-- C1 amended witness: the purity theorem applied at a concrete registry
and config, across two different timestamps. -/
theorem configHash_pure_of_lists_witness :
    (resolveFromRegistry regTwoRules
        (cfgOf (edsOf ["rule:a", "rule:b"] [] [] []) (edsOf [] [] [] []))
        inpPlain "2024-01-01").meta.configHash =
      (resolveFromRegistry regTwoRules
        (cfgOf (edsOf ["rule:a", "rule:b"] [] [] []) (edsOf [] [] [] []))
        inpPlain "2099-12-31").meta.configHash :=
  configHash_pure_of_lists regTwoRules regTwoRules _ _ inpPlain inpPlain
    "2024-01-01" "2099-12-31" rfl rfl rfl rfl rfl rfl

/-- C2: disable dominates enable unconditionally — an id collected into a
kind's disabled union (from any active layer) never appears among the ids
of that kind's final active list, whatever the enable lists and the
dependency closure would contribute. -/
theorem disable_dominates (reg : Registry) (cfg : RootConfig) (inp : ResolveInput)
    (now : String) (hWF : registryWF reg) (id : String) :
    (id ∈ (mergeLayers reg cfg inp).disabled.rules →
      id ∉ (resolveFromRegistry reg cfg inp now).rules.map (fun r => r.id)) ∧
    (id ∈ (mergeLayers reg cfg inp).disabled.agents →
      id ∉ (resolveFromRegistry reg cfg inp now).agents.map (fun a => a.id)) ∧
    (id ∈ (mergeLayers reg cfg inp).disabled.skills →
      id ∉ (resolveFromRegistry reg cfg inp now).skills.map (fun s => s.id)) ∧
    (id ∈ (mergeLayers reg cfg inp).disabled.mcpServers →
      id ∉ (resolveFromRegistry reg cfg inp now).mcpServers.map (fun s => s.id)) := by
  refine ⟨?_, ?_, ?_, ?_⟩
  · intro hdis hmem
    obtain ⟨d, hd, hid⟩ := List.mem_map.mp hmem
    obtain ⟨rid, hrid, hget, _⟩ := (mem_active_rules reg cfg inp now d).mp hd
    have : d.id = rid := rule_id_of_mapGet hWF hget
    rw [this] at hid
    subst hid
    exact closed_rules_not_disabled reg cfg inp rid hrid hdis
  · intro hdis hmem
    obtain ⟨d, hd, hid⟩ := List.mem_map.mp hmem
    obtain ⟨aid, haid, v, hget, _, hdv⟩ := (mem_active_agents reg cfg inp now d).mp hd
    have hv : v.id = aid := agent_id_of_mapGet hWF hget
    rw [hdv, applyInstructionVariants_id, hv] at hid
    subst hid
    exact ((mem_enabledAgents_iff reg cfg inp aid).mp haid).2 hdis
  · intro hdis hmem
    obtain ⟨d, hd, hid⟩ := List.mem_map.mp hmem
    obtain ⟨sid, hsid, hget, _⟩ := (mem_active_skills reg cfg inp now d).mp hd
    have : d.id = sid := skill_id_of_mapGet hWF hget
    rw [this] at hid
    subst hid
    exact closed_skills_not_disabled reg cfg inp sid hsid hdis
  · intro hdis hmem
    obtain ⟨d, hd, hid⟩ := List.mem_map.mp hmem
    obtain ⟨mid, hmid, hget, _⟩ := (mem_active_mcp reg cfg inp now d).mp hd
    have : d.id = mid := mcp_id_of_mapGet hWF hget
    rw [this] at hid
    subst hid
    exact closed_mcp_not_disabled reg cfg inp mid hmid hdis

/-- C2 witness: in a registry holding rule:a, enabling and disabling
rule:a in the base layer leaves it out of the active rules. -/
theorem disable_dominates_witness :
    registryWF regTwoRules ∧
      "rule:a" ∈ (mergeLayers regTwoRules
        (cfgOf (edsOf ["rule:a"] [] [] []) (edsOf ["rule:a"] [] [] []))
        inpPlain).disabled.rules ∧
      "rule:a" ∉ (resolveFromRegistry regTwoRules
        (cfgOf (edsOf ["rule:a"] [] [] []) (edsOf ["rule:a"] [] [] []))
        inpPlain "t").rules.map (fun r => r.id) :=
  ⟨by decide, by decide,
    (disable_dominates regTwoRules
      (cfgOf (edsOf ["rule:a"] [] [] []) (edsOf ["rule:a"] [] [] []))
      inpPlain "t" (by decide) "rule:a").1 (by decide)⟩

/-- C3: dependency closure is complete in two passes — an enabled agent A
listing skill S, with S requiring MCP server M, neither S nor M disabled,
both present in the registry and passing selector matching, puts S among
the active skills and M among the active MCP servers. -/
theorem closure_complete (reg : Registry) (cfg : RootConfig) (inp : ResolveInput)
    (now : String) (hWF : registryWF reg) (A S M : String)
    (ag : AgentDefinition) (sk : SkillDefinition) (mc : McpServerDefinition)
    (hA : A ∈ resolveEnabledAgents reg cfg inp)
    (hag : mapGet reg.agents A = some ag)
    (hS : S ∈ ag.skills.getD [])
    (hsk : mapGet reg.skills S = some sk)
    (hM : M ∈ sk.requiresMcpServers.getD [])
    (hmc : mapGet reg.mcpServers M = some mc)
    (hSd : S ∉ (mergeLayers reg cfg inp).disabled.skills)
    (hMd : M ∉ (mergeLayers reg cfg inp).disabled.mcpServers)
    (hSsel : selectorsMatch sk.selectors inp.model inp.context = true)
    (hMsel : selectorsMatch mc.selectors inp.model inp.context = true) :
    S ∈ (resolveFromRegistry reg cfg inp now).skills.map (fun s => s.id) ∧
      M ∈ (resolveFromRegistry reg cfg inp now).mcpServers.map (fun s => s.id) := by
  have hSclosed : S ∈ (resolveClosed reg cfg inp).skills :=
    closed_skills_of_agent reg cfg inp A S ag hA hag hS hSd
  have hMclosed : M ∈ (resolveClosed reg cfg inp).mcpServers :=
    closed_mcp_of_skill reg cfg inp S M sk hSclosed hsk hM hMd
  constructor
  · refine List.mem_map.mpr ⟨sk, ?_, skill_id_of_mapGet hWF hsk⟩
    exact (mem_active_skills reg cfg inp now sk).mpr ⟨S, hSclosed, hsk, hSsel⟩
  · refine List.mem_map.mpr ⟨mc, ?_, mcp_id_of_mapGet hWF hmc⟩
    exact (mem_active_mcp reg cfg inp now mc).mpr ⟨M, hMclosed, hmc, hMsel⟩

/-- C3 witness: the closure theorem applied to the concrete three-rank
chain agent:a → skill:s → mcp:m with only the agent enabled. -/
theorem closure_complete_witness :
    registryWF regClosure ∧
      "agent:a" ∈ resolveEnabledAgents regClosure
        (cfgOf (edsOf [] ["agent:a"] [] []) (edsOf [] [] [] [])) inpPlain ∧
      "skill:s" ∈ (resolveFromRegistry regClosure
        (cfgOf (edsOf [] ["agent:a"] [] []) (edsOf [] [] [] []))
        inpPlain "t").skills.map (fun s => s.id) ∧
      "mcp:m" ∈ (resolveFromRegistry regClosure
        (cfgOf (edsOf [] ["agent:a"] [] []) (edsOf [] [] [] []))
        inpPlain "t").mcpServers.map (fun s => s.id) := by
  have h := closure_complete regClosure
    (cfgOf (edsOf [] ["agent:a"] [] []) (edsOf [] [] [] [])) inpPlain "t"
    (by decide) "agent:a" "skill:s" "mcp:m"
    (mkAgent "agent:a" (some "base") none ["skill:s"])
    (mkSkill "skill:s" ["mcp:m"]) (mkMcp "mcp:m")
    (by decide) (by decide) (by decide) (by decide) (by decide) (by decide)
    (by decide) (by decide) (by decide) (by decide)
  exact ⟨by decide, by decide, h.1, h.2⟩

/-- Helper: with `allowMissingDependencies` true the acceptance loop
records no errors. -/
theorem collect_errors_allow {α : Type} (lookup : String → Option α) (sel : α → Bool)
    (transform : α → α) (getSource : α → Option SourceInfo) (kindLabel reason : String)
    (ids : List String) (st : Collect α) :
    (ids.foldl (collectStep lookup sel transform getSource kindLabel reason true)
      st).errors = st.errors := by
  induction ids generalizing st with
  | nil => rfl
  | cons i ids ih =>
    show (ids.foldl _ (collectStep lookup sel transform getSource
      kindLabel reason true st i)).errors = _
    rw [ih]
    cases hi : lookup i with
    | none => simp [collectStep, hi]
    | some v => cases hs : sel v <;> simp [collectStep, hi, hs]

/-- C9: acceptance-loop error discipline — for each of the four kinds, a
closed-enabled id missing from the registry yields a recorded not-found
error unless `policy.allowMissingDependencies` is set, in which case no
errors are recorded at all; for each of the four kinds, an entity whose
selectors do not match yields a warning and exclusion from the active
list; every recorded error is a not-found error, never a selector
mismatch; and a (partial) ResolvedConfig is returned in every case. -/
theorem acceptance_error_discipline (reg : Registry) (cfg : RootConfig)
    (inp : ResolveInput) (now : String) (hWF : registryWF reg) :
    (resolveAllowMissing cfg = false →
      (∀ id ∈ (resolveClosed reg cfg inp).rules, mapGet reg.rules id = none →
        notFoundMsg "Rule" id ∈ (resolveFromRegistry reg cfg inp now).trace.errors) ∧
      (∀ id ∈ resolveEnabledAgents reg cfg inp, mapGet reg.agents id = none →
        notFoundMsg "Agent" id ∈ (resolveFromRegistry reg cfg inp now).trace.errors) ∧
      (∀ id ∈ (resolveClosed reg cfg inp).skills, mapGet reg.skills id = none →
        notFoundMsg "Skill" id ∈ (resolveFromRegistry reg cfg inp now).trace.errors) ∧
      (∀ id ∈ (resolveClosed reg cfg inp).mcpServers, mapGet reg.mcpServers id = none →
        notFoundMsg "MCP server" id ∈ (resolveFromRegistry reg cfg inp now).trace.errors)) ∧
    (resolveAllowMissing cfg = true →
      (resolveFromRegistry reg cfg inp now).trace.errors = []) ∧
    (∀ id d, mapGet reg.rules id = some d →
      selectorsMatch d.selectors inp.model inp.context = false →
      (id ∈ (resolveClosed reg cfg inp).rules →
        selSkipMsg "Rule" id ∈ (resolveFromRegistry reg cfg inp now).trace.warnings) ∧
      id ∉ (resolveFromRegistry reg cfg inp now).rules.map (fun r => r.id)) ∧
    (∀ id d, mapGet reg.agents id = some d →
      selectorsMatch d.selectors inp.model inp.context = false →
      (id ∈ resolveEnabledAgents reg cfg inp →
        selSkipMsg "Agent" id ∈ (resolveFromRegistry reg cfg inp now).trace.warnings) ∧
      id ∉ (resolveFromRegistry reg cfg inp now).agents.map (fun a => a.id)) ∧
    (∀ id d, mapGet reg.skills id = some d →
      selectorsMatch d.selectors inp.model inp.context = false →
      (id ∈ (resolveClosed reg cfg inp).skills →
        selSkipMsg "Skill" id ∈ (resolveFromRegistry reg cfg inp now).trace.warnings) ∧
      id ∉ (resolveFromRegistry reg cfg inp now).skills.map (fun s => s.id)) ∧
    (∀ id d, mapGet reg.mcpServers id = some d →
      selectorsMatch d.selectors inp.model inp.context = false →
      (id ∈ (resolveClosed reg cfg inp).mcpServers →
        selSkipMsg "MCP server" id ∈
          (resolveFromRegistry reg cfg inp now).trace.warnings) ∧
      id ∉ (resolveFromRegistry reg cfg inp now).mcpServers.map (fun s => s.id)) ∧
    (∀ e ∈ (resolveFromRegistry reg cfg inp now).trace.errors, ∃ id,
      (e = notFoundMsg "Rule" id ∧ mapGet reg.rules id = none) ∨
      (e = notFoundMsg "Agent" id ∧ mapGet reg.agents id = none) ∨
      (e = notFoundMsg "Skill" id ∧ mapGet reg.skills id = none) ∨
      (e = notFoundMsg "MCP server" id ∧ mapGet reg.mcpServers id = none)) := by
  refine ⟨?_, ?_, ?_, ?_, ?_, ?_, ?_⟩
  · intro hm
    refine ⟨?_, ?_, ?_, ?_⟩
    · intro id hid hnone
      rw [resolve_errors_def]
      refine List.mem_append_left _ (List.mem_append_left _ (List.mem_append_left _ ?_))
      exact (collect_errors_fold _ _ _ _ _ _ _ _ _ _).mpr
        (Or.inr ⟨hm, id, hid, hnone, rfl⟩)
    · intro id hid hnone
      rw [resolve_errors_def]
      refine List.mem_append_left _ (List.mem_append_left _ (List.mem_append_right _ ?_))
      exact (collect_errors_fold _ _ _ _ _ _ _ _ _ _).mpr
        (Or.inr ⟨hm, id, hid, hnone, rfl⟩)
    · intro id hid hnone
      rw [resolve_errors_def]
      refine List.mem_append_left _ (List.mem_append_right _ ?_)
      exact (collect_errors_fold _ _ _ _ _ _ _ _ _ _).mpr
        (Or.inr ⟨hm, id, hid, hnone, rfl⟩)
    · intro id hid hnone
      rw [resolve_errors_def]
      refine List.mem_append_right _ ?_
      exact (collect_errors_fold _ _ _ _ _ _ _ _ _ _).mpr
        (Or.inr ⟨hm, id, hid, hnone, rfl⟩)
  · intro hm
    rw [resolve_errors_def]
    unfold collectAll
    rw [hm, collect_errors_allow, collect_errors_allow, collect_errors_allow,
      collect_errors_allow]
    rfl
  · intro id d hget hsel
    constructor
    · intro hid
      rw [resolve_warnings_def]
      refine List.mem_append_left _ (List.mem_append_left _ (List.mem_append_left _
        (List.mem_append_right _ ?_)))
      exact (collect_warnings_fold _ _ _ _ _ _ _ _ _ _).mpr
        (Or.inr ⟨id, hid, d, hget, hsel, rfl⟩)
    · intro hmem
      obtain ⟨d2, hd2, hid2⟩ := List.mem_map.mp hmem
      obtain ⟨id2, hid2c, hget2, hsel2⟩ := (mem_active_rules reg cfg inp now d2).mp hd2
      have : d2.id = id2 := rule_id_of_mapGet hWF hget2
      rw [this] at hid2
      subst hid2
      rw [hget] at hget2
      cases hget2
      rw [hsel] at hsel2
      cases hsel2
  · intro id d hget hsel
    constructor
    · intro hid
      rw [resolve_warnings_def]
      refine List.mem_append_left _ (List.mem_append_left _
        (List.mem_append_right _ ?_))
      exact (collect_warnings_fold _ _ _ _ _ _ _ _ _ _).mpr
        (Or.inr ⟨id, hid, d, hget, hsel, rfl⟩)
    · intro hmem
      obtain ⟨d2, hd2, hid2⟩ := List.mem_map.mp hmem
      obtain ⟨id2, hid2c, v, hget2, hsel2, hdv⟩ :=
        (mem_active_agents reg cfg inp now d2).mp hd2
      have hv : v.id = id2 := agent_id_of_mapGet hWF hget2
      rw [hdv, applyInstructionVariants_id, hv] at hid2
      subst hid2
      rw [hget] at hget2
      cases hget2
      rw [hsel] at hsel2
      cases hsel2
  · intro id d hget hsel
    constructor
    · intro hid
      rw [resolve_warnings_def]
      refine List.mem_append_left _ (List.mem_append_right _ ?_)
      exact (collect_warnings_fold _ _ _ _ _ _ _ _ _ _).mpr
        (Or.inr ⟨id, hid, d, hget, hsel, rfl⟩)
    · intro hmem
      obtain ⟨d2, hd2, hid2⟩ := List.mem_map.mp hmem
      obtain ⟨id2, hid2c, hget2, hsel2⟩ := (mem_active_skills reg cfg inp now d2).mp hd2
      have : d2.id = id2 := skill_id_of_mapGet hWF hget2
      rw [this] at hid2
      subst hid2
      rw [hget] at hget2
      cases hget2
      rw [hsel] at hsel2
      cases hsel2
  · intro id d hget hsel
    constructor
    · intro hid
      rw [resolve_warnings_def]
      refine List.mem_append_right _ ?_
      exact (collect_warnings_fold _ _ _ _ _ _ _ _ _ _).mpr
        (Or.inr ⟨id, hid, d, hget, hsel, rfl⟩)
    · intro hmem
      obtain ⟨d2, hd2, hid2⟩ := List.mem_map.mp hmem
      obtain ⟨id2, hid2c, hget2, hsel2⟩ := (mem_active_mcp reg cfg inp now d2).mp hd2
      have : d2.id = id2 := mcp_id_of_mapGet hWF hget2
      rw [this] at hid2
      subst hid2
      rw [hget] at hget2
      cases hget2
      rw [hsel] at hsel2
      cases hsel2
  · intro e he
    rw [resolve_errors_def] at he
    rcases List.mem_append.mp he with he3 | hcm
    · rcases List.mem_append.mp he3 with he2 | hcs
      · rcases List.mem_append.mp he2 with hcr | hca
        · rcases (collect_errors_fold _ _ _ _ _ _ _ _ _ _).mp hcr with h | ⟨_, id, _, hn, hrfl⟩
          · simp [collectInit] at h
          · exact ⟨id, Or.inl ⟨hrfl, hn⟩⟩
        · rcases (collect_errors_fold _ _ _ _ _ _ _ _ _ _).mp hca with h | ⟨_, id, _, hn, hrfl⟩
          · simp [collectInit] at h
          · exact ⟨id, Or.inr (Or.inl ⟨hrfl, hn⟩)⟩
      · rcases (collect_errors_fold _ _ _ _ _ _ _ _ _ _).mp hcs with h | ⟨_, id, _, hn, hrfl⟩
        · simp [collectInit] at h
        · exact ⟨id, Or.inr (Or.inr (Or.inl ⟨hrfl, hn⟩))⟩
    · rcases (collect_errors_fold _ _ _ _ _ _ _ _ _ _).mp hcm with h | ⟨_, id, _, hn, hrfl⟩
      · simp [collectInit] at h
      · exact ⟨id, Or.inr (Or.inr (Or.inr ⟨hrfl, hn⟩))⟩

/-- C9 witness: enabling the nonexistent rule:ghost with
allowMissingDependencies unset records the not-found error. -/
theorem acceptance_error_discipline_witness :
    registryWF createEmptyRegistry ∧
      resolveAllowMissing (cfgOf (edsOf ["rule:ghost"] [] [] []) (edsOf [] [] [] []))
        = false ∧
      "rule:ghost" ∈ (resolveClosed createEmptyRegistry
        (cfgOf (edsOf ["rule:ghost"] [] [] []) (edsOf [] [] [] [])) inpPlain).rules ∧
      mapGet createEmptyRegistry.rules "rule:ghost" = none ∧
      notFoundMsg "Rule" "rule:ghost" ∈ (resolveFromRegistry createEmptyRegistry
        (cfgOf (edsOf ["rule:ghost"] [] [] []) (edsOf [] [] [] []))
        inpPlain "t").trace.errors :=
  ⟨by decide, by decide, by decide, rfl,
    ((acceptance_error_discipline createEmptyRegistry
      (cfgOf (edsOf ["rule:ghost"] [] [] []) (edsOf [] [] [] []))
      inpPlain "t" (by decide)).1 (by decide)).1 "rule:ghost" (by decide) rfl⟩

/-- Helper: setting a key makes it look up to the new value. -/
theorem mapGet_mapSet_self {α : Type} (m : List (String × α)) (k : String) (v : α) :
    mapGet (mapSet m k v) k = some v := by
  induction m with
  | nil => simp [mapSet, mapGet, List.find?]
  | cons kv rest ih =>
    by_cases hk : kv.1 == k
    · simp [mapSet, hk, mapGet_cons]
    · simp [mapSet, hk, mapGet_cons, ih]

/-- Helper: the rules component of `addToRegistry` with a single incoming
rule carrying `override:true` under allowed overrides ends at that rule,
collision or not. -/
theorem addToRegistry_rules_lastWins (reg : Registry) (defs : Definitions)
    (r : RuleDefinition) (hd : defs.rules = some [r]) (hov : r.override = true) :
    mapGet (addToRegistry reg defs true).1.rules r.id = some r := by
  have hrule : (addToRegistry reg defs true).1.rules =
      (addWithCollisionCheck (fun x : RuleDefinition => x.id) (fun x => x.override)
        true "rule" reg.rules defs.rules []).1 := rfl
  rw [hrule, hd]
  show mapGet (addItemStep (fun x : RuleDefinition => x.id) (fun x => x.override)
    true "rule" (reg.rules, []) r).1 r.id = some r
  unfold addItemStep
  cases hm : mapGet reg.rules r.id with
  | some ex => simp [hm, hov, mapGet_mapSet_self]
  | none => simp [hm, mapGet_mapSet_self]

/-- C7: registry collision policy — an incoming definition whose id is
already present replaces the existing entry exactly when overrides are
allowed and the incoming definition carries `override:true`; otherwise the
duplicate-id error string is appended and the existing entry is kept, and
loading continues; and since repo definitions are inserted after all
presets, a repo rule with `override:true` wins any tie under allowed
overrides. -/
theorem registry_collision_policy :
    (∀ (α : Type) (getId : α → String) (getOv : α → Bool) (tn : String)
      (m : List (String × α)) (errs : List String) (item existing : α),
      mapGet m (getId item) = some existing → getOv item = true →
      addItemStep getId getOv true tn (m, errs) item =
          (mapSet m (getId item) item, errs) ∧
        mapGet (addItemStep getId getOv true tn (m, errs) item).1 (getId item) =
          some item) ∧
    (∀ (α : Type) (getId : α → String) (getOv : α → Bool) (allow : Bool) (tn : String)
      (m : List (String × α)) (errs : List String) (item existing : α),
      mapGet m (getId item) = some existing → (allow && getOv item) = false →
      addItemStep getId getOv allow tn (m, errs) item =
          (m, errs ++ [duplicateMsg tn (getId item)]) ∧
        mapGet (addItemStep getId getOv allow tn (m, errs) item).1 (getId item) =
          some existing) ∧
    (∀ (fetch : String → PresetFetch) (cfg : RootConfig) (defs : Definitions)
      (r : RuleDefinition),
      (cfg.policy.bind (fun p => p.allowOverrides)).getD true = true →
      defs.rules = some [r] → r.override = true →
      ∃ p : Registry × List String,
        loadFullRegistry fetch (Except.ok defs) cfg = Except.ok p ∧
          mapGet p.1.rules r.id = some r) := by
  refine ⟨?_, ?_, ?_⟩
  · intro α getId getOv tn m errs item existing hex hov
    have hstep : addItemStep getId getOv true tn (m, errs) item =
        (mapSet m (getId item) item, errs) := by
      simp [addItemStep, hex, hov]
    exact ⟨hstep, by rw [hstep]; exact mapGet_mapSet_self m (getId item) item⟩
  · intro α getId getOv allow tn m errs item existing hex hno
    have hstep : addItemStep getId getOv allow tn (m, errs) item =
        (m, errs ++ [duplicateMsg tn (getId item)]) := by
      simp [addItemStep, hex, hno]
    exact ⟨hstep, by rw [hstep]; exact hex⟩
  · intro fetch cfg defs r hallow hd hov
    simp only [loadFullRegistry, hallow]
    exact ⟨_, rfl, addToRegistry_rules_lastWins _ defs r hd hov⟩

/-- C7 witness: a collision between a preset-loaded rule:x and a repo
rule:x carrying `override:true` under the default allow-overrides policy
resolves to the repo version, and the keep-branch emits the duplicate
error at a concrete input. -/
theorem registry_collision_policy_witness :
    (mapGet [("rule:x", mkRule "rule:x" none)] "rule:x" = some (mkRule "rule:x" none) ∧
      mapGet (addItemStep (fun x : RuleDefinition => x.id) (fun x => x.override)
        true "rule" ([("rule:x", mkRule "rule:x" none)], [])
        { mkRule "rule:x" none with override := true, content := "repo" }).1 "rule:x" =
        some { mkRule "rule:x" none with override := true, content := "repo" }) ∧
    (addItemStep (fun x : RuleDefinition => x.id) (fun x => x.override)
        true "rule" ([("rule:x", mkRule "rule:x" none)], [])
        { mkRule "rule:x" none with content := "repo" } =
      ([("rule:x", mkRule "rule:x" none)], [duplicateMsg "rule" "rule:x"])) ∧
    (∃ p : Registry × List String,
      loadFullRegistry
          (fun _ => PresetFetch.ok
            { emptyDefinitions with rules := some [mkRule "rule:x" none] })
          (Except.ok { emptyDefinitions with
            rules := some [{ mkRule "rule:x" none with override := true, content := "repo" }] })
          cfgPreset = Except.ok p ∧
        mapGet p.1.rules "rule:x" =
          some { mkRule "rule:x" none with override := true, content := "repo" }) :=
  ⟨⟨rfl,
    ((registry_collision_policy.1 RuleDefinition (fun x => x.id) (fun x => x.override)
      "rule" [("rule:x", mkRule "rule:x" none)] []
      { mkRule "rule:x" none with override := true, content := "repo" }
      (mkRule "rule:x" none) rfl rfl).2)⟩,
    (registry_collision_policy.2.1 RuleDefinition (fun x => x.id) (fun x => x.override)
      true "rule" [("rule:x", mkRule "rule:x" none)] []
      { mkRule "rule:x" none with content := "repo" } (mkRule "rule:x" none)
      rfl rfl).1,
    registry_collision_policy.2.2
      (fun _ => PresetFetch.ok
        { emptyDefinitions with rules := some [mkRule "rule:x" none] })
      cfgPreset
      { emptyDefinitions with
        rules := some [{ mkRule "rule:x" none with override := true, content := "repo" }] }
      { mkRule "rule:x" none with override := true, content := "repo" }
      rfl rfl rfl⟩

/-- Helper: one preset step only appends to the error list. -/
theorem loadPresetStep_errors (allow : Bool) (fetch : String → PresetFetch)
    (st : Registry × List String) (ref : String) :
    ∃ tail, (loadPresetStep allow fetch st ref).2 = st.2 ++ tail := by
  unfold loadPresetStep
  cases fetch ref with
  | resolveFail msg => exact ⟨_, rfl⟩
  | noManifest p => exact ⟨_, rfl⟩
  | ok defs => exact ⟨_, rfl⟩

/-- Helper: the preset loop only appends to the error list. -/
theorem presetFold_errors_mono (allow : Bool) (fetch : String → PresetFetch)
    (refs : List String) (st : Registry × List String) :
    ∃ tail, (refs.foldl (loadPresetStep allow fetch) st).2 = st.2 ++ tail := by
  induction refs generalizing st with
  | nil => exact ⟨[], (List.append_nil _).symm⟩
  | cons ref refs ih =>
    obtain ⟨t1, h1⟩ := loadPresetStep_errors allow fetch st ref
    obtain ⟨t2, h2⟩ := ih (loadPresetStep allow fetch st ref)
    refine ⟨t1 ++ t2, ?_⟩
    show (refs.foldl (loadPresetStep allow fetch) (loadPresetStep allow fetch st ref)).2 = _
    rw [h2, h1, List.append_assoc]

/-- Helper: a preset whose manifest lookup threw contributes its caught
error string to the loop's error list. -/
theorem mem_presetFold_noManifest (allow : Bool) (fetch : String → PresetFetch)
    (refs : List String) (ref path : String) (hf : fetch ref = PresetFetch.noManifest path) :
    ∀ st : Registry × List String, ref ∈ refs →
      presetErrMsg ref (noManifestMsg path) ∈
        (refs.foldl (loadPresetStep allow fetch) st).2 := by
  induction refs with
  | nil => intro st href; cases href
  | cons r rs ih =>
    intro st href
    rcases List.mem_cons.mp href with rfl | hrs
    · obtain ⟨tail, htail⟩ :=
        presetFold_errors_mono allow fetch rs (loadPresetStep allow fetch st ref)
      show _ ∈ (rs.foldl (loadPresetStep allow fetch) (loadPresetStep allow fetch st ref)).2
      rw [htail]
      apply List.mem_append_left
      unfold loadPresetStep
      rw [hf]
      exact List.mem_append_right _ (List.mem_singleton.mpr rfl)
    · exact ih (loadPresetStep allow fetch st r) hrs

/-- C8 counterexample: a registry build whose single preset directory has
no manifest completes with `Except.ok` — the thrown manifest error is
caught, recorded as an error string, and the preset skipped — instead of
aborting the whole build as the claim states. -/
theorem missing_manifest_counterexample :
    loadFullRegistry fetchNoManifest (Except.ok emptyDefinitions) cfgPreset =
      Except.ok (createEmptyRegistry,
        [presetErrMsg "demo-preset" (noManifestMsg "/presets/demo")]) := rfl

/-- C8 amended: during `loadFullRegistry` every preset failure — path
resolution or missing manifest — is caught by the per-preset try/catch:
the build always returns a registry when the repo definitions load, a
missing-manifest preset contributes the formatted error string, and only
a throw while loading the repo's own definitions (outside the try) aborts
the build. -/
theorem missing_manifest_soft_failure :
    (∀ (fetch : String → PresetFetch) (defs : Definitions) (cfg : RootConfig),
      ∃ p : Registry × List String,
        loadFullRegistry fetch (Except.ok defs) cfg = Except.ok p) ∧
    (∀ (fetch : String → PresetFetch) (defs : Definitions) (cfg : RootConfig)
      (ref path : String),
      ref ∈ cfg.extendsPresets.getD [] → fetch ref = PresetFetch.noManifest path →
      ∀ p : Registry × List String,
        loadFullRegistry fetch (Except.ok defs) cfg = Except.ok p →
          presetErrMsg ref (noManifestMsg path) ∈ p.2) ∧
    (∀ (fetch : String → PresetFetch) (msg : String) (cfg : RootConfig),
      loadFullRegistry fetch (Except.error msg) cfg = Except.error msg) := by
  refine ⟨?_, ?_, ?_⟩
  · intro fetch defs cfg
    exact ⟨_, rfl⟩
  · intro fetch defs cfg ref path href hf p hp
    have hmem := mem_presetFold_noManifest
      ((cfg.policy.bind (fun q => q.allowOverrides)).getD true) fetch
      (cfg.extendsPresets.getD []) ref path hf (createEmptyRegistry, []) href
    have heq : loadFullRegistry fetch (Except.ok defs) cfg =
        Except.ok
          ((addToRegistry
            ((cfg.extendsPresets.getD []).foldl
              (loadPresetStep ((cfg.policy.bind (fun q => q.allowOverrides)).getD true)
                fetch) (createEmptyRegistry, [])).1 defs
            ((cfg.policy.bind (fun q => q.allowOverrides)).getD true)).1,
          ((cfg.extendsPresets.getD []).foldl
            (loadPresetStep ((cfg.policy.bind (fun q => q.allowOverrides)).getD true)
              fetch) (createEmptyRegistry, [])).2 ++
          (addToRegistry
            ((cfg.extendsPresets.getD []).foldl
              (loadPresetStep ((cfg.policy.bind (fun q => q.allowOverrides)).getD true)
                fetch) (createEmptyRegistry, [])).1 defs
            ((cfg.policy.bind (fun q => q.allowOverrides)).getD true)).2) := rfl
    rw [heq] at hp
    cases hp
    exact List.mem_append_left _ hmem
  · intro fetch msg cfg
    rfl

/-- C8 amended witness: one build with a manifest-less preset succeeds and
records the caught error string. -/
theorem missing_manifest_soft_failure_witness :
    "demo-preset" ∈ cfgPreset.extendsPresets.getD [] ∧
      fetchNoManifest "demo-preset" = PresetFetch.noManifest "/presets/demo" ∧
      presetErrMsg "demo-preset" (noManifestMsg "/presets/demo") ∈
        (createEmptyRegistry,
          [presetErrMsg "demo-preset" (noManifestMsg "/presets/demo")]).2 :=
  ⟨by decide, rfl,
    missing_manifest_soft_failure.2.1 fetchNoManifest emptyDefinitions cfgPreset
      "demo-preset" "/presets/demo" (by decide) rfl
      (createEmptyRegistry,
        [presetErrMsg "demo-preset" (noManifestMsg "/presets/demo")])
      rfl⟩

end Infrax
